import Mathlib

/-!
# AegisSec — verification of the adaptive tool-chaining orchestrator

Shallow embedding of the core orchestrator of the AegisSec repository
(`src/automation_engine.py`, `src/tool_manager.py`) together with proofs of
the behavioural claims made by the specification.

Python strings are modelled by Lean `String`/`List Char`.  The built-in
Python string helpers used by the code (`str.lower`, `str.strip`,
`in`-containment, `str.replace`, `str.split`) are modelled over their ASCII
behaviour, which is exact for every command template, blocklist entry and
pattern appearing in the code.  Wall-clock durations are modelled as
rationals supplied by the environment, since the code only stores and copies
them.  External effects (process execution, the DeepSeek advisory service)
are modelled as explicit oracles passed to the embedded functions.
-/

namespace AegisSec

/-! ## Python string primitives -/

/-- Model of Python `str.lower()` (ASCII range, which covers every key and
blocklist entry used by the code). -/
def pyLower (s : String) : String := String.mk (s.data.map Char.toLower)

/-- Remove leading and trailing whitespace from a character list. -/
def trimChars (cs : List Char) : List Char :=
  ((cs.dropWhile Char.isWhitespace).reverse.dropWhile Char.isWhitespace).reverse

/-- Model of Python `str.strip()` with no arguments: remove leading and
trailing whitespace. -/
def pyStrip (s : String) : String := String.mk (trimChars s.data)

/-- Containment of `needle` in `hay` over character lists: model of the
Python `in` operator on strings. -/
def infixOf (needle : List Char) : List Char → Bool
  | [] => needle.isEmpty
  | c :: rest => needle.isPrefixOf (c :: rest) || infixOf needle rest

/-- Model of the Python expression `needle in hay` for strings. -/
def pyIn (needle hay : String) : Bool := infixOf needle.toList hay.toList

/-- Whitespace tokenization over character lists, accumulating the current
token in reverse. -/
def pySplitAux : List Char → List Char → List (List Char)
  | [], acc => if acc.isEmpty then [] else [acc.reverse]
  | c :: rest, acc =>
      if c.isWhitespace then
        if acc.isEmpty then pySplitAux rest [] else acc.reverse :: pySplitAux rest []
      else pySplitAux rest (c :: acc)

/-- Model of Python `str.split()` with no arguments: split on runs of
whitespace, discarding empty pieces. -/
def pySplit (s : String) : List String :=
  (pySplitAux s.data []).map String.mk

/-! ## `ToolManager.validate_tool_safety` (src/tool_manager.py lines 223-244) -/

/-- The fixed blocklist `dangerous_patterns` of `validate_tool_safety`. -/
def dangerous_patterns : List String :=
  ["rm -rf", "dd if=", "format", "mkfs", "> /dev/",
   "shutdown", "reboot", "halt", "init 0", "init 6"]

/-- The scanning loop of `validate_tool_safety`: return `false` on the first
pattern contained in the (already lowercased) command, else `true`. -/
def checkPatterns (lowered : String) : List String → Bool
  | [] => true
  | p :: ps => if pyIn p lowered then false else checkPatterns lowered ps

/-- Model of `ToolManager.validate_tool_safety`: lowercase the command and
reject it when any blocklist entry occurs inside it. -/
def validate_tool_safety (command : String) : Bool :=
  checkPatterns (pyLower command) dangerous_patterns

/-- A command case-insensitively contains some blocklist entry. -/
def hasBlockedPattern (command : String) : Bool :=
  dangerous_patterns.any (fun p => pyIn p (pyLower command))

theorem checkPatterns_eq_not_any (lowered : String) (ps : List String) :
    checkPatterns lowered ps = ! ps.any (fun p => pyIn p lowered) := by
  induction ps with
  | nil => rfl
  | cons p ps ih =>
      simp only [checkPatterns, List.any_cons]
      by_cases h : pyIn p lowered = true
      · simp [h]
      · simp [h, ih]

theorem validate_tool_safety_eq (command : String) :
    validate_tool_safety command = ! hasBlockedPattern command := by
  simpa [validate_tool_safety, hasBlockedPattern] using
    checkPatterns_eq_not_any (pyLower command) dangerous_patterns

/-! ## `ToolManager.get_tool_command_template` (src/tool_manager.py lines 205-221) -/

/-- Model of `ToolManager.get_tool_command_template`: the static `templates`
dictionary looked up by the exact tool name, with fallback
`f'{tool_name} {target}'`. -/
def get_tool_command_template (tool_name : String) (target : String) : String :=
  if tool_name = "nmap" then "nmap -sS -O " ++ target
  else if tool_name = "nikto" then "nikto -h " ++ target
  else if tool_name = "dirb" then "dirb http://" ++ target ++ "/"
  else if tool_name = "gobuster" then
    "gobuster dir -u http://" ++ target ++ " -w /usr/share/wordlists/common.txt"
  else if tool_name = "sqlmap" then "sqlmap -u \"http://" ++ target ++ "/\" --batch"
  else if tool_name = "hydra" then
    "hydra -l admin -P /usr/share/wordlists/rockyou.txt " ++ target ++ " ssh"
  else if tool_name = "wpscan" then "wpscan --url http://" ++ target ++ "/"
  else if tool_name = "john" then "john --wordlist=/usr/share/wordlists/rockyou.txt hashfile"
  else if tool_name = "hashcat" then "hashcat -m 0 hashfile /usr/share/wordlists/rockyou.txt"
  else if tool_name = "aircrack-ng" then
    "aircrack-ng -w /usr/share/wordlists/rockyou.txt capture.cap"
  else if tool_name = "recon-ng" then
    "recon-ng -m recon/domains-hosts/google_site_web -o SOURCE=" ++ target
  else tool_name ++ " " ++ target

/-! ## `AutomationEngine._validate_command` (src/automation_engine.py lines 408-414) -/

/-- Model of `AutomationEngine._validate_command`: the wrapper used on the
advisory-generated-command path, which additionally requires a non-empty
command of trimmed length at least 3 before delegating to
`validate_tool_safety`. -/
def validate_command (command : String) : Bool :=
  if command = "" || (pyStrip command).length < 3 then false
  else validate_tool_safety command

example : validate_tool_safety "" = true := by decide
example : validate_tool_safety "rm -rf /" = false := by decide
example : validate_tool_safety "RM -RF /tmp/x" = false := by decide
example : validate_command "ab" = false := by decide
example : validate_tool_safety "ab" = true := by decide

/-! ## Output signal extraction (src/automation_engine.py lines 313-327)

The body of `_generate_smart_command` scans each previous output with
`re.findall(r'(\d+)/tcp\s+open\s+(\w+)', output)` for port/service pairs and
`re.findall(r'200\s+\d+\s+([/\w\-\.]+)', output)` for discovered paths.
Both patterns are translated as direct functional matchers.  Every greedy
repetition in them is followed by a character that cannot belong to the
repeated class (`\d+` by `/` or `\s`, `\s+` by a letter or digit, and the
final `\w+` / `[/\w\-\.]+` end the pattern), so greedy matching without
backtracking coincides with Python's backtracking semantics.  The character
classes are modelled over their ASCII ranges. -/

/-- The regex class `\w`: ASCII letters, digits and underscore. -/
def isWordChar (c : Char) : Bool := c.isAlphanum || c = '_'

/-- The regex class `[/\w\-\.]` of the path pattern. -/
def isDirPathChar (c : Char) : Bool := c = '/' || isWordChar c || c = '-' || c = '.'

/-- Match `(\d+)/tcp\s+open\s+(\w+)` at the head of `cs`; on success return
the two capture groups and the remainder after the match. -/
def matchPortAt (cs : List Char) : Option (String × String × List Char) :=
  let ds := cs.takeWhile Char.isDigit
  if ds.isEmpty then none else
  match cs.dropWhile Char.isDigit with
  | '/' :: 't' :: 'c' :: 'p' :: r2 =>
    if (r2.takeWhile Char.isWhitespace).isEmpty then none else
    match r2.dropWhile Char.isWhitespace with
    | 'o' :: 'p' :: 'e' :: 'n' :: r4 =>
      if (r4.takeWhile Char.isWhitespace).isEmpty then none else
      let r5 := r4.dropWhile Char.isWhitespace
      let w := r5.takeWhile isWordChar
      if w.isEmpty then none else
      some (String.mk ds, String.mk w, r5.dropWhile isWordChar)
    | _ => none
  | _ => none

/-- Match `200\s+\d+\s+([/\w\-\.]+)` at the head of `cs`; on success return
the captured path and the remainder after the match. -/
def matchDirAt (cs : List Char) : Option (String × List Char) :=
  match cs with
  | '2' :: '0' :: '0' :: r1 =>
    if (r1.takeWhile Char.isWhitespace).isEmpty then none else
    let r2 := r1.dropWhile Char.isWhitespace
    if (r2.takeWhile Char.isDigit).isEmpty then none else
    let r3 := r2.dropWhile Char.isDigit
    if (r3.takeWhile Char.isWhitespace).isEmpty then none else
    let r4 := r3.dropWhile Char.isWhitespace
    let path := r4.takeWhile isDirPathChar
    if path.isEmpty then none else
    some (String.mk path, r4.dropWhile isDirPathChar)
  | _ => none

/-- `re.findall` scanning loop for the port/service pattern: leftmost
non-overlapping matches, resuming after each match.  Each match consumes at
least one character, so `fuel = length + 1` makes the scan exact. -/
def findallPortsAux : Nat → List Char → List (String × String)
  | 0, _ => []
  | _ + 1, [] => []
  | fuel + 1, c :: rest =>
    match matchPortAt (c :: rest) with
    | some (p, sv, after) => (p, sv) :: findallPortsAux fuel after
    | none => findallPortsAux fuel rest

/-- All `(\d+)/tcp\s+open\s+(\w+)` matches of an output, in order. -/
def findallPorts (output : String) : List (String × String) :=
  findallPortsAux (output.data.length + 1) output.data

/-- `re.findall` scanning loop for the path pattern. -/
def findallDirsAux : Nat → List Char → List String
  | 0, _ => []
  | _ + 1, [] => []
  | fuel + 1, c :: rest =>
    match matchDirAt (c :: rest) with
    | some (p, after) => p :: findallDirsAux fuel after
    | none => findallDirsAux fuel rest

/-- All `200\s+\d+\s+([/\w\-\.]+)` matches of an output, in order. -/
def findallDirs (output : String) : List String :=
  findallDirsAux (output.data.length + 1) output.data

/-- The accumulated evidence of `_generate_smart_command`: `found_ports`,
`found_services` and `found_dirs` (the spec's `SignalSet`). -/
structure SignalSet where
  openPorts : List String
  services : List String
  discoveredPaths : List String
  deriving DecidableEq

/-- The empty signal set. -/
def SignalSet.empty : SignalSet := ⟨[], [], []⟩

/-- The body of the Python loop `for port, service in port_matches`: append
the port and the service only when not already present. -/
def addPortService (s : SignalSet) (pr : String × String) : SignalSet :=
  let s1 := if s.openPorts.contains pr.1 then s
            else { s with openPorts := s.openPorts ++ [pr.1] }
  if s1.services.contains pr.2 then s1
  else { s1 with services := s1.services ++ [pr.2] }

/-- Fold of `addPortService` over the list of matches, in order. -/
def addAll : List (String × String) → SignalSet → SignalSet
  | [], s => s
  | pr :: rest, s => addAll rest (addPortService s pr)

/-- Signal extraction for one raw output: the port/service loop followed by
`found_dirs.extend(dir_matches)` (src/automation_engine.py lines 315-327). -/
def extractSignals (output : String) (s : SignalSet) : SignalSet :=
  let s1 := addAll (findallPorts output) s
  { s1 with discoveredPaths := s1.discoveredPaths ++ findallDirs output }

/-- The signal set accumulated over all previous outputs, starting empty. -/
def signalsOfOutputs (previous_outputs : List String) : SignalSet :=
  previous_outputs.foldl (fun s out => extractSignals out s) SignalSet.empty

/-! ## Per-tool command generators (src/automation_engine.py lines 307-406) -/

/-- Python `sep.join(xs)`. -/
def joinWith (sep : String) : List String → String
  | [] => ""
  | [x] => x
  | x :: rest => x ++ sep ++ joinWith sep rest

/-- Model of `_generate_nmap_command`: deep scan of the found ports when any
are known, otherwise the broad discovery scan. -/
def generate_nmap_command (target : String) (found_ports : List String) : String :=
  if found_ports.isEmpty then "nmap -sS -sV -O -A --top-ports 1000 " ++ target
  else "nmap -sC -sV -p " ++ joinWith "," found_ports ++ " " ++ target

/-- Model of `_generate_sqlmap_command`: the first discovered path containing
one of `?`, `=`, `login`, `search` is attacked directly, else a generic
crawl. -/
def generate_sqlmap_command (target : String) (found_dirs : List String) : String :=
  match found_dirs.find? (fun d => ["?", "=", "login", "search"].any (fun p => pyIn p d)) with
  | some d => "sqlmap -u \"http://" ++ target ++ d ++ "\" --batch --crawl=2"
  | none => "sqlmap -u \"http://" ++ target ++ "/\" --batch --crawl=2 --forms"

/-- Model of `_generate_hydra_command`: service chosen by the priority
ssh > ftp > http(s), defaulting to ssh. -/
def generate_hydra_command (target : String) (found_services : List String) : String :=
  if found_services.contains "ssh" then
    "hydra -l root -P /usr/share/wordlists/rockyou.txt " ++ target ++ " ssh"
  else if found_services.contains "ftp" then
    "hydra -l anonymous -P /usr/share/wordlists/rockyou.txt " ++ target ++ " ftp"
  else if found_services.contains "http" || found_services.contains "https" then
    "hydra -l admin -P /usr/share/wordlists/rockyou.txt " ++ target ++
      " http-post-form \"/login:username=^USER^&password=^PASS^:Invalid\""
  else
    "hydra -l admin -P /usr/share/wordlists/rockyou.txt " ++ target ++ " ssh"

/-- Model of `_generate_metasploit_command`. -/
def generate_metasploit_command (target : String) (found_services : List String) : String :=
  if found_services.contains "ssh" then
    "msfconsole -q -x \"use auxiliary/scanner/ssh/ssh_login; set RHOSTS " ++ target ++
      "; set USERNAME root; set PASS_FILE /usr/share/wordlists/rockyou.txt; run; exit\""
  else if found_services.contains "ftp" then
    "msfconsole -q -x \"use auxiliary/scanner/ftp/ftp_login; set RHOSTS " ++ target ++
      "; run; exit\""
  else
    "msfconsole -q -x \"use auxiliary/scanner/portscan/tcp; set RHOSTS " ++ target ++
      "; run; exit\""

/-- Model of `_generate_searchsploit_command`: query the first three found
services, defaulting to apache. -/
def generate_searchsploit_command (found_services : List String) : String :=
  if found_services.isEmpty then "searchsploit apache"
  else "searchsploit " ++ joinWith " " (found_services.take 3)

/-- The `basic_commands` dictionary of `_generate_smart_command`, looked up
by the lowercased tool name (src/automation_engine.py lines 330-352). -/
def basicCommandLookup (key target : String)
    (found_ports found_services found_dirs : List String) : Option String :=
  if key = "nmap" then some (generate_nmap_command target found_ports)
  else if key = "nikto" then some ("nikto -h " ++ target)
  else if key = "sqlmap" then some (generate_sqlmap_command target found_dirs)
  else if key = "dirb" then
    some ("dirb http://" ++ target ++ "/ /usr/share/wordlists/dirb/common.txt")
  else if key = "gobuster" then
    some ("gobuster dir -u http://" ++ target ++
      "/ -w /usr/share/wordlists/dirb/common.txt -x php,html,txt,js")
  else if key = "hydra" then some (generate_hydra_command target found_services)
  else if key = "john" then some "john --wordlist=/usr/share/wordlists/rockyou.txt hashes.txt"
  else if key = "metasploit" then some (generate_metasploit_command target found_services)
  else if key = "burpsuite" then
    some ("echo \"Manual Burp Suite testing required for " ++ target ++ "\"")
  else if key = "wireshark" then some ("tshark -i any -c 100 host " ++ target)
  else if key = "wpscan" then some ("wpscan --url http://" ++ target ++ "/ --enumerate u,p,t")
  else if key = "searchsploit" then some (generate_searchsploit_command found_services)
  else if key = "enum4linux" then some ("enum4linux -a " ++ target)
  else if key = "smbclient" then some ("smbclient -L " ++ target ++ " -N")
  else if key = "whatweb" then some ("whatweb " ++ target)
  else if key = "dnsrecon" then some ("dnsrecon -d " ++ target)
  else if key = "fierce" then some ("fierce -dns " ++ target)
  else if key = "theharvester" then some ("theharvester -d " ++ target ++ " -b google,bing")
  else if key = "aircrack-ng" then
    some "aircrack-ng -w /usr/share/wordlists/rockyou.txt capture.cap"
  else none

/-- Model of `_generate_smart_command`: extract signals from the previous
outputs, look the lowercased tool name up in `basic_commands`, and fall back
to `f'{tool_name} {target}'` when the lookup misses (or yields a falsy,
i.e. empty, command). -/
def generate_smart_command (tool_name target : String)
    (previous_outputs : List String) : String :=
  let sig := signalsOfOutputs previous_outputs
  match basicCommandLookup (pyLower tool_name) target
      sig.openPorts sig.services sig.discoveredPaths with
  | some c => if c = "" then tool_name ++ " " ++ target else c
  | none => tool_name ++ " " ++ target

example :
    findallPorts "22/tcp open ssh\n80/tcp open http" =
      [("22", "ssh"), ("80", "http")] := by decide
example : findallDirs "200 1234 /admin" = ["/admin"] := by decide
example :
    generate_smart_command "nmap" "10.0.0.5" [] =
      "nmap -sS -sV -O -A --top-ports 1000 10.0.0.5" := by decide
example :
    generate_smart_command "nmap" "10.0.0.5" ["22/tcp open ssh\n80/tcp open http"] =
      "nmap -sC -sV -p 22,80 10.0.0.5" := by decide
example :
    generate_smart_command "unknowntool" "10.0.0.5" [] = "unknowntool 10.0.0.5" := by decide

/-! ## `_extract_target_from_criteria` (src/automation_engine.py lines 692-716)

The three patterns are written in the source as raw strings with doubled
backslashes:

* `ip_pattern = r'\\b(?:[0-9]{1,3}\\.){3}[0-9]{1,3}\\b'`
* `domain_pattern = r'\\b(?:[a-zA-Z0-9](?:[a-zA-Z0-9\\-]{0,61}[a-zA-Z0-9])?\\.)+'`
* `url_pattern = r'https?://([^\\s/]+)'`

Inside a raw string `\\` is two characters, so as regexes `\\` matches one
literal backslash character: `\\b` matches the two characters `\` `b` (not a
word boundary), `\\.` matches a backslash followed by any character other
than a newline, and the class `[^\\s/]` excludes the three characters `\`,
`s` and `/`.  The matchers below translate exactly those semantics.  Greedy
sub-matches whose follow character cannot belong to the repeated class
(`[0-9]{1,3}` followed by the literal `\`, the trailing `[^\s/]+` and the
final repetitions at pattern end) are implemented without backtracking,
which coincides with Python's backtracking search; the one genuinely
ambiguous repetition, `[a-zA-Z0-9\\-]{0,61}` inside the domain pattern, is
implemented with explicit longest-first backtracking. -/

/-- `[0-9]{1,3}` (greedy, followed in all uses by the literal `\`): take at
most three leading digits. -/
def chompDigits13 (cs : List Char) : Option (List Char) :=
  let ds := (cs.takeWhile Char.isDigit).take 3
  if ds.isEmpty then none else some (cs.drop ds.length)

/-- One repetition `[0-9]{1,3}\\.` of the ip pattern: digits, a literal
backslash, then any character other than a newline (the metachar `.`). -/
def chompIpUnit (cs : List Char) : Option (List Char) :=
  (chompDigits13 cs).bind fun r =>
    match r with
    | '\\' :: a :: rest => if a = '\n' then none else some rest
    | _ => none

/-- Match the full ip pattern at the head of `cs`, returning the remainder. -/
def matchIpAt (cs : List Char) : Option (List Char) :=
  match cs with
  | '\\' :: 'b' :: r0 =>
    (chompIpUnit r0).bind fun r1 =>
    (chompIpUnit r1).bind fun r2 =>
    (chompIpUnit r2).bind fun r3 =>
    (chompDigits13 r3).bind fun r4 =>
    match r4 with
    | '\\' :: 'b' :: r5 => some r5
    | _ => none
  | _ => none

/-- The class `[a-zA-Z0-9\\-]` of the domain pattern (alphanumerics, the
backslash, the hyphen). -/
def isDomCls (c : Char) : Bool := c.isAlphanum || c = '\\' || c = '-'

/-- The tail `\\.` of a domain-pattern repetition: a literal backslash then
any character other than a newline. -/
def domTail (r : List Char) : Option (List Char) :=
  match r with
  | '\\' :: a :: rest => if a = '\n' then none else some rest
  | _ => none

/-- Try the optional group `[a-zA-Z0-9\\-]{0,61}[a-zA-Z0-9]` with exactly `j`
class characters, then the tail `\\.`. -/
def tryGroupWith (r : List Char) (j : Nat) : Option (List Char) :=
  if j ≤ r.length then
    if (r.take j).all isDomCls then
      match r.drop j with
      | c :: rest => if c.isAlphanum then domTail rest else none
      | [] => none
    else none
  else none

/-- Greedy `{0,61}`: try `j` class characters from `j = n` down to `0`. -/
def tryGroupDown : Nat → List Char → Option (List Char)
  | 0, r => tryGroupWith r 0
  | j + 1, r =>
    match tryGroupWith r (j + 1) with
    | some rest => some rest
    | none => tryGroupDown j r

/-- One repetition `[a-zA-Z0-9](?:[a-zA-Z0-9\\-]{0,61}[a-zA-Z0-9])?\\.` of
the domain pattern: a leading alphanumeric, the greedy optional group
(preferred present, longest first), then the tail. -/
def matchDomUnit (cs : List Char) : Option (List Char) :=
  match cs with
  | c :: r =>
    if c.isAlphanum then
      match tryGroupDown 61 r with
      | some rest => some rest
      | none => domTail r
    else none
  | [] => none

/-- `(...)+` over the domain repetition: at least one repetition, then as
many further repetitions as keep matching (the pattern ends here, so a
failing further repetition simply ends the match).  Every repetition
consumes at least three characters, so `fuel = length + 1` is exact. -/
def matchDomPlus : Nat → List Char → Option (List Char)
  | 0, _ => none
  | fuel + 1, cs =>
    (matchDomUnit cs).bind fun r =>
      match matchDomPlus fuel r with
      | some r2 => some r2
      | none => some r

/-- Match the full domain pattern at the head of `cs`. -/
def matchDomainAt (fuel : Nat) (cs : List Char) : Option (List Char) :=
  match cs with
  | '\\' :: 'b' :: r => matchDomPlus fuel r
  | _ => none

/-- The class `[^\\s/]` of the url pattern: anything but the three
characters `\`, `s`, `/`. -/
def isUrlHostChar (c : Char) : Bool := !(c = '\\' || c = 's' || c = '/')

/-- Match `://` followed by the captured host `[^\\s/]+`. -/
def urlFrom (r2 : List Char) : Option (String × List Char) :=
  match r2 with
  | ':' :: '/' :: '/' :: r3 =>
    let host := r3.takeWhile isUrlHostChar
    if host.isEmpty then none else some (String.mk host, r3.drop host.length)
  | _ => none

/-- Match `https?://([^\\s/]+)` at the head of `cs`, returning capture group
one (greedy `s?`: prefer the variant with the `s`). -/
def matchUrlAt (cs : List Char) : Option (String × List Char) :=
  match cs with
  | 'h' :: 't' :: 't' :: 'p' :: r =>
    (match r with
     | 's' :: r1 =>
       match urlFrom r1 with
       | some res => some res
       | none => urlFrom r
     | _ => urlFrom r)
  | _ => none

/-- `re.search` for the ip pattern: leftmost match, returning the matched
text (`match.group()`). -/
def searchIpAux : Nat → List Char → Option String
  | 0, _ => none
  | fuel + 1, cs =>
    match matchIpAt cs with
    | some rest => some (String.mk (cs.take (cs.length - rest.length)))
    | none =>
      match cs with
      | [] => none
      | _ :: t => searchIpAux fuel t

/-- `re.search` for the domain pattern, returning the matched text. -/
def searchDomainAux : Nat → List Char → Option String
  | 0, _ => none
  | fuel + 1, cs =>
    match matchDomainAt (cs.length + 1) cs with
    | some rest => some (String.mk (cs.take (cs.length - rest.length)))
    | none =>
      match cs with
      | [] => none
      | _ :: t => searchDomainAux fuel t

/-- `re.search` for the url pattern, returning capture group one. -/
def searchUrlAux : Nat → List Char → Option String
  | 0, _ => none
  | fuel + 1, cs =>
    match matchUrlAt cs with
    | some (host, _) => some host
    | none =>
      match cs with
      | [] => none
      | _ :: t => searchUrlAux fuel t

/-- Python `str.rstrip('.')`: drop trailing dots. -/
def rstripDot (s : String) : String :=
  String.mk ((s.data.reverse.dropWhile (· = '.')).reverse)

/-- Model of `_extract_target_from_criteria`: ordered pattern matching – the
ip pattern first, then the domain pattern (right-stripped of dots), then the
url pattern's host capture, then the loopback fallback. -/
def extract_target_from_criteria (criteria : String) : String :=
  match searchIpAux (criteria.data.length + 1) criteria.data with
  | some m => m
  | none =>
    match searchDomainAux (criteria.data.length + 1) criteria.data with
    | some m => rstripDot m
    | none =>
      match searchUrlAux (criteria.data.length + 1) criteria.data with
      | some host => host
      | none => "127.0.0.1"

example :
    extract_target_from_criteria "x \\b192\\.168\\.1\\.1\\b y" =
      "\\b192\\.168\\.1\\.1\\b" := by decide
example : extract_target_from_criteria "dom \\ba\\. tail" = "\\ba\\" := by decide
example :
    extract_target_from_criteria "visit http://testsite.com/page now" = "te" := by decide
example : extract_target_from_criteria "check example.com please" = "127.0.0.1" := by decide

/-! ## `_generate_command` (src/automation_engine.py lines 669-690) -/

/-- Replacement scan of Python `str.replace` for a non-empty pattern:
left-to-right, non-overlapping.  Each step consumes at least one character,
so `fuel = length + 1` is exact. -/
def pyReplaceAux (old new : List Char) : Nat → List Char → List Char
  | 0, cs => cs
  | fuel + 1, cs =>
    if old.isPrefixOf cs ∧ old ≠ [] then
      new ++ pyReplaceAux old new fuel (cs.drop old.length)
    else
      match cs with
      | [] => []
      | c :: t => c :: pyReplaceAux old new fuel t

/-- Model of Python `s.replace(old, new)` for non-empty `old` (the code only
replaces the placeholders `TARGET` and `{target}`). -/
def pyReplace (s old new : String) : String :=
  String.mk (pyReplaceAux old.data new.data (s.data.length + 1) s.data)

/-- One entry of the job's tool list: `{'name': ..., 'command_template': ...}`
with `''` standing for an absent template, exactly as
`tool_info.get('command_template', '')` yields. -/
structure ToolInfo where
  name : String
  command_template : String
  deriving DecidableEq

/-- Model of `AutomationEngine._generate_command`: substitute the extracted
target into an explicit template when present, otherwise take the
tool-manager template; then gate the command through `validate_tool_safety`
(not through `_validate_command`), returning `None` when it is blocked. -/
def generate_command (tool : ToolInfo) (criteria : String) : Option String :=
  let target := extract_target_from_criteria criteria
  let command :=
    if tool.command_template ≠ "" then
      pyReplace (pyReplace tool.command_template "TARGET" target) "\x7btarget\x7d" target
    else get_tool_command_template tool.name target
  if validate_tool_safety command then some command else none

example :
    generate_command ⟨"nmap", ""⟩ "assess host alpha" = some "nmap -sS -O 127.0.0.1" := by
  decide
example : generate_command ⟨"mytool", "mytool --rm -rf TARGET"⟩ "x" = none := by decide

/-! ## `_execute_single_command` (src/automation_engine.py lines 762-818) -/

/-- One physical process run: `{command, success, stdout, stderr, exit code,
duration}` (the `ExecutionAttempt` of the spec). -/
structure ExecAttempt where
  success : Bool
  output : String
  error : String
  return_code : Int
  execution_time : ℚ
  deriving DecidableEq

/-- What the operating system did with the spawned process: the four
outcomes distinguished by the `try/except` of `_execute_single_command`. -/
inductive ProcOutcome
  | completed (returncode : Int) (stdout stderr : String)
  | timedOut
  | fileNotFound
  | launchError (msg : String)
  deriving DecidableEq

/-- `command.split()[0]`: the executable name.  A `FileNotFoundError` can
only be raised for a non-empty argument vector (an empty one raises inside
`subprocess` and is caught by the generic handler), so the head exists in
that branch. -/
def firstToken (command : String) : String := (pySplit command).headD ""

/-- Model of `_execute_single_command`: total over commands and outcomes,
building the attempt record each `except` branch returns. -/
def execute_single_command (command : String) (timeout : Nat) (oc : ProcOutcome)
    (elapsed : ℚ) : ExecAttempt :=
  match oc with
  | .completed rc stdout stderr =>
      { success := rc == 0, output := stdout, error := stderr,
        return_code := rc, execution_time := elapsed }
  | .timedOut =>
      { success := false, output := "",
        error := "Command timed out after " ++ toString timeout ++ " seconds",
        return_code := -1, execution_time := elapsed }
  | .fileNotFound =>
      { success := false, output := "",
        error := "Tool '" ++ firstToken command ++
          "' not found. Please ensure it's installed and in PATH.",
        return_code := -1, execution_time := elapsed }
  | .launchError msg =>
      { success := false, output := "", error := "Execution error: " ++ msg,
        return_code := -1, execution_time := elapsed }

/-! ## `_execute_tool_with_retry` (src/automation_engine.py lines 718-760)

The process runs and the advisory service are oracles: `execOne i cmd` is the
attempt produced by the `i`-th physical execution of the session running
`cmd`, and `fixCmd tool cmd err` is the string `deepseek.fix_command_error`
returns (`""` models a falsy reply). -/

/-- The `for attempt in range(max_retries + 1)` loop, returning the attempts
in order.  The structure mirrors the Python control flow: stop after a
successful attempt; after a failed attempt, stop when it was the last
allowed one (`attempt = max_retries`) or when the advisory fix is falsy,
otherwise continue with the fixed command. -/
def retryAttempts (execOne : Nat → String → ExecAttempt)
    (fixCmd : String → String → String → String) (tool_name : String) :
    Nat → Nat → String → List ExecAttempt
  | 0, _, _ => []
  | fuel + 1, idx, cmd =>
    let a := execOne idx cmd
    if a.success then [a]
    else if fuel = 0 then [a]
    else
      let f := fixCmd tool_name cmd a.error
      if f = "" then [a]
      else a :: retryAttempts execOne fixCmd tool_name fuel (idx + 1) f

/-- The result dictionary of `_execute_tool_with_retry`.  `return_code` is
only added to the dictionary by the success-path `result.update(...)`, hence
the `Option`. -/
structure ToolResultR where
  tool : String
  command : String
  success : Bool
  output : String
  error : String
  execution_time : ℚ
  return_code : Option Int
  attempts : List ExecAttempt
  deriving DecidableEq

/-- Model of `_execute_tool_with_retry`: run the retry loop, then mirror the
last attempt into the result — on success via `result.update(attempt_result)`,
on failure via the explicit `error`/`execution_time` copy from
`result["attempts"][-1]`. -/
def execute_tool_with_retry (execOne : Nat → String → ExecAttempt)
    (fixCmd : String → String → String → String)
    (tool_name command : String) (max_retries : Nat) : ToolResultR :=
  let atts := retryAttempts execOne fixCmd tool_name (max_retries + 1) 0 command
  match atts.getLast? with
  | some last =>
    if last.success then
      { tool := tool_name, command := command, success := true, output := last.output,
        error := last.error, execution_time := last.execution_time,
        return_code := some last.return_code, attempts := atts }
    else
      { tool := tool_name, command := command, success := false, output := "",
        error := last.error, execution_time := last.execution_time,
        return_code := none, attempts := atts }
  | none =>
    { tool := tool_name, command := command, success := false, output := "",
      error := "", execution_time := 0, return_code := none, attempts := [] }

/-! ## `run_tools` (src/automation_engine.py lines 48-110)

Two statements inside the loop raise for reasons the code cannot recover
from, and `run_tools` has no handler for them:

* once `executed_tools` is non-empty the loop calls
  `self._generate_intelligent_command(...)` (line 77), a method defined
  nowhere in the class — an `AttributeError`;
* after a successful attempt with non-empty output it calls
  `self.deepseek.analyze_tool_output(tool_name, result["output"])`
  (line 93) with two arguments, while the method requires three — a
  `TypeError`;
* `remaining_tools.remove(tool_name)` raises `ValueError` when the name was
  already removed (duplicate tool names).

The model makes those crash points explicit: a crash carries the tool being
processed, and the results recorded before the exception propagated. -/

/-- The uncaught exceptions `run_tools` can raise. -/
inductive RunCrash
  | attrErrorIntelligent (tool : String)
  | typeErrorAnalyze (tool : String)
  | valueErrorRemove (tool : String)
  deriving DecidableEq

/-- Outcome of `run_tools`: the per-tool results in execution order, the
crash that interrupted the loop (if any), and whether `_save_session` was
reached. -/
structure RunToolsResult where
  results : List (String × ToolResultR)
  crash : Option RunCrash
  saved : Bool
  deriving DecidableEq

/-- The `for tool_info in tools` loop of `run_tools`. -/
def run_tools_loop (execOne : Nat → String → ExecAttempt)
    (fixCmd : String → String → String → String) (criteria : String) :
    List ToolInfo → List String → List String → List (String × ToolResultR) →
    RunToolsResult
  | [], _, _, results => { results := results, crash := none, saved := true }
  | tool :: rest, executed, remaining, results =>
    if tool.name = "" then
      run_tools_loop execOne fixCmd criteria rest executed remaining results
    else if !executed.isEmpty then
      { results := results, crash := some (.attrErrorIntelligent tool.name), saved := false }
    else
      match generate_command tool criteria with
      | none => run_tools_loop execOne fixCmd criteria rest executed remaining results
      | some cmd =>
        let r := execute_tool_with_retry execOne fixCmd tool.name cmd 2
        let results2 := results ++ [(tool.name, r)]
        let executed2 := executed ++ [tool.name]
        if remaining.contains tool.name then
          let remaining2 := remaining.erase tool.name
          if r.success && r.output != "" then
            { results := results2, crash := some (.typeErrorAnalyze tool.name), saved := false }
          else
            run_tools_loop execOne fixCmd criteria rest executed2 remaining2 results2
        else
          { results := results2, crash := some (.valueErrorRemove tool.name), saved := false }

/-- Model of `run_tools`: initialise `remaining_tools` with the non-empty
tool names and run the loop. -/
def run_tools (execOne : Nat → String → ExecAttempt)
    (fixCmd : String → String → String → String)
    (tools : List ToolInfo) (criteria : String) : RunToolsResult :=
  run_tools_loop execOne fixCmd criteria tools []
    ((tools.map (·.name)).filter (· != "")) []

/-! ## `_generate_session_id` (src/automation_engine.py lines 664-667) -/

/-- Wall-clock time as `datetime.now()` observes it, including the
sub-second microsecond component that `strftime("%Y%m%d_%H%M%S")` drops. -/
structure PyDateTime where
  year : Nat
  month : Nat
  day : Nat
  hour : Nat
  minute : Nat
  second : Nat
  micro : Nat
  deriving DecidableEq

/-- Decimal digit characters. -/
def digitChar (d : Nat) : Char :=
  match d with
  | 0 => '0' | 1 => '1' | 2 => '2' | 3 => '3' | 4 => '4'
  | 5 => '5' | 6 => '6' | 7 => '7' | 8 => '8' | _ => '9'

/-- Two-digit zero-padded rendering (faithful to `%m%d_%H%M%S` for values
below 100). -/
def pad2 (n : Nat) : List Char := [digitChar (n / 10), digitChar (n % 10)]

/-- Four-digit rendering of `%Y` (faithful for years 1000–9999). -/
def pad4 (n : Nat) : List Char :=
  [digitChar (n / 1000), digitChar (n / 100 % 10), digitChar (n / 10 % 10),
   digitChar (n % 10)]

/-- Model of `datetime.now().strftime("%Y%m%d_%H%M%S")`: second resolution,
the microsecond component is not rendered. -/
def formatTimestamp (t : PyDateTime) : String :=
  String.mk (pad4 t.year ++ pad2 t.month ++ pad2 t.day ++ ['_'] ++
    pad2 t.hour ++ pad2 t.minute ++ pad2 t.second)

/-- Model of `_generate_session_id`: the fixed prefix plus the formatted
execution-start timestamp. -/
def generate_session_id (t : PyDateTime) : String :=
  "autopentest_" ++ formatTimestamp t

example :
    generate_session_id ⟨2025, 10, 12, 9, 30, 7, 0⟩ = "autopentest_20251012_093007" := by
  decide

/-! ## Session persistence (src/automation_engine.py lines 820-842)

`_save_session` writes `json.dump(session_data, f, indent=2, default=str)`
and `load_session` reads it back with `json.load`.  The persisted document
is modelled as a JSON syntax tree with ordered object fields (Python dicts
preserve insertion order through `json.dump`/`json.load`).  Numbers are
modelled as the decimal literals `json.dump` writes (`repr` of an int or
float), which `json.load` reads back verbatim; strings use the
`ensure_ascii` escaping of `json.dump`.  The serializer below reproduces the
`indent=2` layout and the parser models `json.load`. -/

/-- JSON insignificant whitespace. -/
def isJsonWs (c : Char) : Bool := c = ' ' || c = '\t' || c = '\n' || c = '\r'

/-- Skip insignificant whitespace. -/
def skipWs (cs : List Char) : List Char := cs.dropWhile isJsonWs

/-- A decimal numeric literal as `json.dump` writes one: optional minus,
integer digits, optional fractional digits, optional signed exponent
(`true` = negative exponent). -/
structure NumLit where
  neg : Bool
  intPart : List Char
  fracPart : List Char
  expPart : Option (Bool × List Char)
  deriving DecidableEq

/-- Well-formedness of a numeric literal: the digit runs contain digits and
the mandatory ones are non-empty. -/
def NumLit.wf (n : NumLit) : Bool :=
  !n.intPart.isEmpty && n.intPart.all Char.isDigit && n.fracPart.all Char.isDigit &&
    (match n.expPart with
     | none => true
     | some (_, ds) => !ds.isEmpty && ds.all Char.isDigit)

/-- Render a numeric literal. -/
def renderNum (n : NumLit) : List Char :=
  (if n.neg then ['-'] else []) ++ n.intPart ++
  (if n.fracPart.isEmpty then [] else '.' :: n.fracPart) ++
  (match n.expPart with
   | none => []
   | some (sgn, ds) => 'e' :: (if sgn then '-' else '+') :: ds)

/-- Parse an optional leading minus sign. -/
def parseMinus (cs : List Char) : Bool × List Char :=
  match cs with
  | [] => (false, [])
  | c :: r => if c = '-' then (true, r) else (false, c :: r)

/-- Parse the exponent tail after the `e`/`E` marker: optional sign, then at
least one digit (maximal munch). -/
def parseExpTail (sgn : Bool) (ip fp : List Char) (rr : List Char) :
    Option (NumLit × List Char) :=
  let pr : Bool × List Char :=
    match rr with
    | [] => (false, [])
    | c :: q => if c = '-' then (true, q) else if c = '+' then (false, q) else (false, c :: q)
  let ds := pr.2.takeWhile Char.isDigit
  if ds.isEmpty then none
  else some (⟨sgn, ip, fp, some (pr.1, ds)⟩, pr.2.dropWhile Char.isDigit)

/-- Parse the optional exponent part. -/
def parseExp (sgn : Bool) (ip fp : List Char) (r : List Char) :
    Option (NumLit × List Char) :=
  match r with
  | [] => some (⟨sgn, ip, fp, none⟩, [])
  | c :: rr =>
    if c = 'e' ∨ c = 'E' then parseExpTail sgn ip fp rr
    else some (⟨sgn, ip, fp, none⟩, c :: rr)

/-- Parse a numeric literal, maximal munch, as `json.load` does. -/
def parseNum (cs : List Char) : Option (NumLit × List Char) :=
  let pr := parseMinus cs
  let ip := pr.2.takeWhile Char.isDigit
  if ip.isEmpty then none
  else
    match pr.2.dropWhile Char.isDigit with
    | [] => parseExp pr.1 ip [] []
    | c :: rr =>
      if c = '.' then
        let fp := rr.takeWhile Char.isDigit
        if fp.isEmpty then none
        else parseExp pr.1 ip fp (rr.dropWhile Char.isDigit)
      else parseExp pr.1 ip [] (c :: rr)

/-- The characters that can legitimately follow a rendered number inside a
rendered document (separator, closing bracket, newline, space or the end),
none of which can extend a numeric literal. -/
def isNumDelim : List Char → Bool
  | [] => true
  | c :: _ => c = ',' || c = ']' || c = '}' || c = '\n' || c = ' '

example :
    parseNum (renderNum ⟨true, ['1', '2'], ['5'], some (true, ['0', '7'])⟩ ++ [',']) =
      some (⟨true, ['1', '2'], ['5'], some (true, ['0', '7'])⟩, [',']) := by decide

/-- Lowercase hexadecimal digits, as `json.dumps` emits them. -/
def hexDigitChar (d : Nat) : Char :=
  if d < 10 then digitChar d
  else match d with
  | 10 => 'a' | 11 => 'b' | 12 => 'c' | 13 => 'd' | 14 => 'e' | _ => 'f'

/-- Hexadecimal digit value, both cases, as `json.load` accepts. -/
def hexVal (c : Char) : Option Nat :=
  if c.isDigit then some (c.toNat - 48)
  else if 'a' ≤ c && c ≤ 'f' then some (c.toNat - 87)
  else if 'A' ≤ c && c ≤ 'F' then some (c.toNat - 55)
  else none

/-- Four-digit hexadecimal rendering of `n < 0x10000`. -/
def hex4 (n : Nat) : List Char :=
  [hexDigitChar (n / 4096 % 16), hexDigitChar (n / 256 % 16),
   hexDigitChar (n / 16 % 16), hexDigitChar (n % 16)]

/-- Parse four hexadecimal digits. -/
def parseHex4 (cs : List Char) : Option (Nat × List Char) :=
  match cs with
  | a :: b :: c :: d :: rest =>
    (hexVal a).bind fun va =>
    (hexVal b).bind fun vb =>
    (hexVal c).bind fun vc =>
    (hexVal d).bind fun vd =>
    some (va * 4096 + vb * 256 + vc * 16 + vd, rest)
  | _ => none

/-- `json.dumps` (default `ensure_ascii=True`) escaping of one character:
quote and backslash escapes, the short control escapes, `\uXXXX` for other
control and all non-ASCII characters, surrogate pairs above `0xFFFF`. -/
def escChar (c : Char) : List Char :=
  if c = '"' then ['\\', '"']
  else if c = '\\' then ['\\', '\\']
  else if c = '\n' then ['\\', 'n']
  else if c = '\t' then ['\\', 't']
  else if c = '\r' then ['\\', 'r']
  else if c = '\x08' then ['\\', 'b']
  else if c = '\x0c' then ['\\', 'f']
  else if c.toNat < 32 then '\\' :: 'u' :: hex4 c.toNat
  else if c.toNat < 127 then [c]
  else if c.toNat < 65536 then '\\' :: 'u' :: hex4 c.toNat
  else
    ('\\' :: 'u' :: hex4 (55296 + (c.toNat - 65536) / 1024)) ++
    ('\\' :: 'u' :: hex4 (56320 + (c.toNat - 65536) % 1024))

/-- Escape a character list. -/
def escList : List Char → List Char
  | [] => []
  | c :: t => escChar c ++ escList t

/-- Render a JSON string (quotes and escaped content). -/
def renderJString (s : String) : List Char := '"' :: escList s.data ++ ['"']

/-- Parse one escape sequence (the part after the backslash), combining
surrogate pairs back into one character; lone surrogates are rejected
(`json.dump` never writes them for the scalar values Lean strings hold). -/
def parseEsc (cs : List Char) : Option (Char × List Char) :=
  match cs with
  | [] => none
  | e :: r =>
    if e = '"' then some ('"', r)
    else if e = '\\' then some ('\\', r)
    else if e = '/' then some ('/', r)
    else if e = 'n' then some ('\n', r)
    else if e = 't' then some ('\t', r)
    else if e = 'r' then some ('\r', r)
    else if e = 'b' then some ('\x08', r)
    else if e = 'f' then some ('\x0c', r)
    else if e = 'u' then
      (parseHex4 r).bind fun p =>
        if 55296 ≤ p.1 ∧ p.1 ≤ 56319 then
          match p.2 with
          | '\\' :: 'u' :: r3 =>
            (parseHex4 r3).bind fun q =>
              if 56320 ≤ q.1 ∧ q.1 ≤ 57343 then
                some (Char.ofNat ((p.1 - 55296) * 1024 + (q.1 - 56320) + 65536), q.2)
              else none
          | _ => none
        else if 56320 ≤ p.1 ∧ p.1 ≤ 57343 then none
        else some (Char.ofNat p.1, p.2)
    else none

/-- Parse the body of a JSON string up to the closing quote.  The fuel
bounds the number of produced characters, each of which consumes at least
one input character, so any fuel above the input length is exact. -/
def parseStringBody : Nat → List Char → Option (List Char × List Char)
  | 0, _ => none
  | _ + 1, [] => none
  | fuel + 1, c :: r =>
    if c = '"' then some ([], r)
    else if c = '\\' then
      (parseEsc r).bind fun p =>
        (parseStringBody fuel p.2).map fun q => (p.1 :: q.1, q.2)
    else (parseStringBody fuel r).map fun q => (c :: q.1, q.2)

example :
    parseStringBody 50 (escList "aé\n\"€🙂".data ++ '"' :: ['x']) =
      some ("aé\n\"€🙂".data, ['x']) := by decide

/-! ### Round-trip of the persistence format: digit-run and escape lemmas -/

theorem takeWhile_append_all (p : Char → Bool) (l s : List Char)
    (h : ∀ c ∈ l, p c = true) (h2 : ∀ c t, s = c :: t → p c = false) :
    (l ++ s).takeWhile p = l := by
  induction l with
  | nil =>
      cases s with
      | nil => rfl
      | cons c t => simp [List.takeWhile_cons, h2 c t rfl]
  | cons c cs ih =>
      rw [List.cons_append, List.takeWhile_cons, if_pos (h c (List.mem_cons_self _ _)),
        ih (fun x hx => h x (List.mem_cons_of_mem _ hx))]

theorem dropWhile_append_all (p : Char → Bool) (l s : List Char)
    (h : ∀ c ∈ l, p c = true) (h2 : ∀ c t, s = c :: t → p c = false) :
    (l ++ s).dropWhile p = s := by
  induction l with
  | nil =>
      cases s with
      | nil => rfl
      | cons c t => simp [List.dropWhile_cons, h2 c t rfl]
  | cons c cs ih =>
      rw [List.cons_append, List.dropWhile_cons, if_pos (h c (List.mem_cons_self _ _))]
      exact ih (fun x hx => h x (List.mem_cons_of_mem _ hx))

theorem delim_head_cases (c : Char) (t : List Char)
    (hd : isNumDelim (c :: t) = true) :
    c = ',' ∨ c = ']' ∨ c = '}' ∨ c = '\n' ∨ c = ' ' := by
  simp only [isNumDelim, Bool.or_eq_true, decide_eq_true_eq] at hd
  tauto

theorem delim_head_not_digit (rest : List Char) (hd : isNumDelim rest = true) :
    ∀ c t, rest = c :: t → c.isDigit = false := by
  intro c t h
  subst h
  rcases delim_head_cases c t hd with h | h | h | h | h <;> subst h <;> decide

theorem delim_head_not_e (rest : List Char) (hd : isNumDelim rest = true) :
    ∀ c t, rest = c :: t → ¬(c = 'e' ∨ c = 'E') := by
  intro c t h
  subst h
  rcases delim_head_cases c t hd with h | h | h | h | h <;> subst h <;> decide

theorem delim_head_not_dot (rest : List Char) (hd : isNumDelim rest = true) :
    ∀ c t, rest = c :: t → c ≠ '.' := by
  intro c t h
  subst h
  rcases delim_head_cases c t hd with h | h | h | h | h <;> subst h <;> decide

theorem parseMinus_digit (l : List Char) (d : Char) (hd : d.isDigit = true) :
    parseMinus (d :: l) = (false, d :: l) := by
  have hne : d ≠ '-' := fun h => by subst h; exact absurd hd (by decide)
  simp [parseMinus, hne]

theorem parseExp_delim (sgn : Bool) (ip fp : List Char) (rest : List Char)
    (hd : isNumDelim rest = true) :
    parseExp sgn ip fp rest = some (⟨sgn, ip, fp, none⟩, rest) := by
  cases rest with
  | nil => rfl
  | cons c t => simp [parseExp, delim_head_not_e (c :: t) hd c t rfl]

theorem parseExpTail_render (sgn : Bool) (ip fp : List Char) (esgn : Bool)
    (ds rest : List Char) (hne : ds ≠ []) (hdig : ∀ c ∈ ds, c.isDigit = true)
    (hd : isNumDelim rest = true) :
    parseExpTail sgn ip fp ((if esgn then '-' else '+') :: (ds ++ rest)) =
      some (⟨sgn, ip, fp, some (esgn, ds)⟩, rest) := by
  have htk := takeWhile_append_all Char.isDigit ds rest hdig (delim_head_not_digit rest hd)
  have hdr := dropWhile_append_all Char.isDigit ds rest hdig (delim_head_not_digit rest hd)
  have hne2 : ¬(ds.isEmpty = true) := by simpa [List.isEmpty_iff] using hne
  cases esgn with
  | true =>
      show parseExpTail sgn ip fp ('-' :: (ds ++ rest)) = _
      simp [parseExpTail, htk, hdr, hne2]
  | false =>
      show parseExpTail sgn ip fp ('+' :: (ds ++ rest)) = _
      simp [parseExpTail, htk, hdr, hne2]

/-- Rendering of the exponent part. -/
def renderExpPart : Option (Bool × List Char) → List Char
  | none => []
  | some (sgn, ds) => 'e' :: (if sgn then '-' else '+') :: ds

theorem parseExp_render (sgn : Bool) (ip fp : List Char)
    (ex : Option (Bool × List Char)) (rest : List Char)
    (hex : match ex with
           | none => True
           | some p => p.2 ≠ [] ∧ ∀ c ∈ p.2, c.isDigit = true)
    (hd : isNumDelim rest = true) :
    parseExp sgn ip fp (renderExpPart ex ++ rest) =
      some (⟨sgn, ip, fp, ex⟩, rest) := by
  match ex with
  | none => exact parseExp_delim sgn ip fp rest hd
  | some (esgn, ds) =>
      obtain ⟨h1, h2⟩ := hex
      show parseExp sgn ip fp ('e' :: ((if esgn then '-' else '+') :: ds ++ rest)) = _
      rw [parseExp]
      rw [if_pos (Or.inl rfl)]
      exact parseExpTail_render sgn ip fp esgn ds rest h1 h2 hd

/-- Well-formedness of an optional exponent part, unpacked. -/
def ExpWF : Option (Bool × List Char) → Prop
  | none => True
  | some p => p.2 ≠ [] ∧ ∀ c ∈ p.2, c.isDigit = true

theorem exp_head_not_digit (ex : Option (Bool × List Char)) (rest : List Char)
    (hd : isNumDelim rest = true) :
    ∀ c t, renderExpPart ex ++ rest = c :: t → c.isDigit = false := by
  intro c t h
  match ex with
  | none =>
      simp only [renderExpPart, List.nil_append] at h
      exact delim_head_not_digit rest hd c t h
  | some (esgn, ds) =>
      simp only [renderExpPart, List.cons_append, List.cons.injEq] at h
      rw [← h.1]
      decide

theorem parseExp_render_delimited (sgn : Bool) (ip fp : List Char)
    (ex : Option (Bool × List Char)) (rest : List Char) (hexw : ExpWF ex)
    (hd : isNumDelim rest = true) :
    parseExp sgn ip fp (renderExpPart ex ++ rest) = some (⟨sgn, ip, fp, ex⟩, rest) := by
  match ex with
  | none => exact parseExp_delim sgn ip fp rest hd
  | some (esgn, ds) =>
      show parseExp sgn ip fp ('e' :: ((if esgn then '-' else '+') :: ds ++ rest)) = _
      rw [parseExp, if_pos (Or.inl rfl)]
      exact parseExpTail_render sgn ip fp esgn ds rest hexw.1 hexw.2 hd

theorem parseNum_full (sgn : Bool) (ip fp : List Char) (ex : Option (Bool × List Char))
    (rest : List Char) (hipne : ip ≠ []) (hipd : ∀ c ∈ ip, c.isDigit = true)
    (hfpd : ∀ c ∈ fp, c.isDigit = true) (hexw : ExpWF ex)
    (hd : isNumDelim rest = true) :
    parseNum ((if sgn then ['-'] else []) ++
        (ip ++ ((if fp.isEmpty then [] else '.' :: fp) ++ (renderExpPart ex ++ rest)))) =
      some (⟨sgn, ip, fp, ex⟩, rest) := by
  -- the tail after the integer digits, and the fact its head is not a digit
  have htail : ∀ c t,
      (if fp.isEmpty then [] else '.' :: fp) ++ (renderExpPart ex ++ rest) = c :: t →
      c.isDigit = false := by
    intro c t h
    cases fp with
    | nil =>
        simp only [List.isEmpty_nil, if_pos rfl, List.nil_append] at h
        exact exp_head_not_digit ex rest hd c t h
    | cons f fs =>
        have : ('.' :: (f :: fs) ++ (renderExpPart ex ++ rest) : List Char) = c :: t := by
          simpa using h
        have hc : c = '.' := by
          have := (List.cons.injEq _ _ _ _).mp this
          exact this.1.symm
        subst hc
        decide
  have hmin : parseMinus ((if sgn then ['-'] else []) ++
      (ip ++ ((if fp.isEmpty then [] else '.' :: fp) ++ (renderExpPart ex ++ rest)))) =
      (sgn, ip ++ ((if fp.isEmpty then [] else '.' :: fp) ++ (renderExpPart ex ++ rest))) := by
    cases sgn with
    | true => simp [parseMinus]
    | false =>
        obtain ⟨d, ds, hds⟩ := List.exists_cons_of_ne_nil hipne
        subst hds
        simp only [Bool.false_eq_true, if_false, List.nil_append, List.cons_append]
        exact parseMinus_digit _ d (hipd d (List.mem_cons_self _ _))
  have htk := takeWhile_append_all Char.isDigit ip _ hipd htail
  have hdr := dropWhile_append_all Char.isDigit ip _ hipd htail
  simp only [parseNum, hmin, htk, hdr]
  rw [if_neg (by simpa [List.isEmpty_iff] using hipne)]
  cases fp with
  | nil =>
      simp only [List.isEmpty_nil, if_pos rfl, List.nil_append]
      match ex, hexw with
      | some (esgn, ds), hexw =>
          show (match ('e' :: ((if esgn then '-' else '+') :: ds ++ rest) : List Char) with
                | [] => parseExp sgn ip [] []
                | c :: rr =>
                  if c = '.' then
                    if (rr.takeWhile Char.isDigit).isEmpty = true then none
                    else parseExp sgn ip (rr.takeWhile Char.isDigit)
                      (rr.dropWhile Char.isDigit)
                  else parseExp sgn ip [] (c :: rr)) = _
          have hne : ('e' : Char) ≠ '.' := by decide
          simp only [if_neg hne]
          exact parseExp_render_delimited sgn ip [] (some (esgn, ds)) rest hexw hd
      | none, _ =>
          show (match (rest : List Char) with
                | [] => parseExp sgn ip [] []
                | c :: rr =>
                  if c = '.' then
                    if (rr.takeWhile Char.isDigit).isEmpty = true then none
                    else parseExp sgn ip (rr.takeWhile Char.isDigit)
                      (rr.dropWhile Char.isDigit)
                  else parseExp sgn ip [] (c :: rr)) = _
          cases rest with
          | nil => simpa using parseExp_delim sgn ip [] [] rfl
          | cons c rr =>
              have hne : c ≠ '.' := delim_head_not_dot (c :: rr) hd c rr rfl
              simp only [if_neg hne]
              exact parseExp_delim sgn ip [] (c :: rr) hd
  | cons f fs =>
      have htk2 := takeWhile_append_all Char.isDigit (f :: fs) _ hfpd
        (exp_head_not_digit ex rest hd)
      have hdr2 := dropWhile_append_all Char.isDigit (f :: fs) _ hfpd
        (exp_head_not_digit ex rest hd)
      simp only [List.cons_append] at htk2 hdr2
      simp [htk2, hdr2]
      exact parseExp_render_delimited sgn ip (f :: fs) ex rest hexw hd

theorem parseNum_renderNum (n : NumLit) (rest : List Char)
    (hwf : n.wf = true) (hd : isNumDelim rest = true) :
    parseNum (renderNum n ++ rest) = some (n, rest) := by
  obtain ⟨sgn, ip, fp, ex⟩ := n
  simp only [NumLit.wf, Bool.and_eq_true, List.all_eq_true, Bool.not_eq_true'] at hwf
  have hipne : ip ≠ [] := by
    intro h
    have := hwf.1.1.1
    subst h
    simp at this
  have hipd : ∀ c ∈ ip, c.isDigit = true := hwf.1.1.2
  have hfpd : ∀ c ∈ fp, c.isDigit = true := hwf.1.2
  have hexw : ExpWF ex := by
    rcases hwf with ⟨-, hx⟩
    match ex with
    | none => trivial
    | some (esgn, ds) =>
        simp only [Bool.and_eq_true, Bool.not_eq_true', List.all_eq_true] at hx
        refine ⟨?_, hx.2⟩
        intro h
        have := hx.1
        subst h
        simp at this
  have hshape : renderNum ⟨sgn, ip, fp, ex⟩ ++ rest =
      (if sgn then ['-'] else []) ++
        (ip ++ ((if fp.isEmpty then [] else '.' :: fp) ++ (renderExpPart ex ++ rest))) := by
    simp [renderNum, renderExpPart, List.append_assoc]
  rw [hshape]
  exact parseNum_full sgn ip fp ex rest hipne hipd hfpd hexw hd

theorem hexVal_hexDigitChar : ∀ d < 16, hexVal (hexDigitChar d) = some d := by decide

theorem parseHex4_hex4 (n : Nat) (h : n < 65536) (t : List Char) :
    parseHex4 (hex4 n ++ t) = some (n, t) := by
  have h1 : n / 4096 % 16 < 16 := Nat.mod_lt _ (by norm_num)
  have h2 : n / 256 % 16 < 16 := Nat.mod_lt _ (by norm_num)
  have h3 : n / 16 % 16 < 16 := Nat.mod_lt _ (by norm_num)
  have h4 : n % 16 < 16 := Nat.mod_lt _ (by norm_num)
  show parseHex4 (hexDigitChar (n / 4096 % 16) :: hexDigitChar (n / 256 % 16) ::
      hexDigitChar (n / 16 % 16) :: hexDigitChar (n % 16) :: t) = some (n, t)
  simp only [parseHex4, hexVal_hexDigitChar _ h1, hexVal_hexDigitChar _ h2,
    hexVal_hexDigitChar _ h3, hexVal_hexDigitChar _ h4, Option.some_bind,
    Option.some.injEq, Prod.mk.injEq]
  refine ⟨by omega, trivial⟩

theorem parseEsc_u_pair (hi lo : Nat) (t : List Char) (hhi : hi < 65536)
    (hlo : lo < 65536) (hA : 55296 ≤ hi ∧ hi ≤ 56319) (hB : 56320 ≤ lo ∧ lo ≤ 57343) :
    parseEsc ('u' :: (hex4 hi ++ ('\\' :: 'u' :: (hex4 lo ++ t)))) =
      some (Char.ofNat ((hi - 55296) * 1024 + (lo - 56320) + 65536), t) := by
  simp [parseEsc, parseHex4_hex4 _ hhi, parseHex4_hex4 _ hlo, hA, hB]

theorem escChar_spec (c : Char) (t : List Char) :
    (escChar c = [c] ∧ c ≠ '"' ∧ c ≠ '\\') ∨
    (∃ e, escChar c = '\\' :: e ∧ parseEsc (e ++ t) = some (c, t)) := by
  by_cases h1 : c = '"'
  · subst h1; exact Or.inr ⟨['"'], rfl, by simp [parseEsc]⟩
  by_cases h2 : c = '\\'
  · subst h2; exact Or.inr ⟨['\\'], rfl, by simp [parseEsc]⟩
  by_cases h3 : c = '\n'
  · subst h3; exact Or.inr ⟨['n'], rfl, by simp [parseEsc]⟩
  by_cases h4 : c = '\t'
  · subst h4; exact Or.inr ⟨['t'], rfl, by simp [parseEsc]⟩
  by_cases h5 : c = '\r'
  · subst h5; exact Or.inr ⟨['r'], rfl, by simp [parseEsc]⟩
  by_cases h6 : c = '\x08'
  · subst h6; exact Or.inr ⟨['b'], rfl, by simp [parseEsc]⟩
  by_cases h7 : c = '\x0c'
  · subst h7; exact Or.inr ⟨['f'], rfl, by simp [parseEsc]⟩
  by_cases h8 : c.toNat < 32
  · right
    have hv : c.toNat < 65536 := by omega
    have hA : ¬(55296 ≤ c.toNat ∧ c.toNat ≤ 56319) := by omega
    have hB : ¬(56320 ≤ c.toNat ∧ c.toNat ≤ 57343) := by omega
    refine ⟨'u' :: hex4 c.toNat, ?_, ?_⟩
    · simp [escChar, h1, h2, h3, h4, h5, h6, h7, h8]
    · simp [parseEsc, parseHex4_hex4 _ hv t, hA, hB, Char.ofNat_toNat]
  by_cases h9 : c.toNat < 127
  · left
    refine ⟨?_, h1, h2⟩
    simp [escChar, h1, h2, h3, h4, h5, h6, h7, h8, h9]
  by_cases h10 : c.toNat < 65536
  · right
    have hval : c.toNat < 55296 ∨ 57343 < c.toNat ∧ c.toNat < 1114112 := c.valid
    have hA : ¬(55296 ≤ c.toNat ∧ c.toNat ≤ 56319) := by rcases hval with h | h <;> omega
    have hB : ¬(56320 ≤ c.toNat ∧ c.toNat ≤ 57343) := by rcases hval with h | h <;> omega
    refine ⟨'u' :: hex4 c.toNat, ?_, ?_⟩
    · simp [escChar, h1, h2, h3, h4, h5, h6, h7, h8, h9, h10]
    · simp [parseEsc, parseHex4_hex4 _ h10 t, hA, hB, Char.ofNat_toNat]
  · right
    have hval : c.toNat < 55296 ∨ 57343 < c.toNat ∧ c.toNat < 1114112 := c.valid
    have hup : c.toNat < 1114112 := by rcases hval with h | h <;> omega
    have hlow : 65536 ≤ c.toNat := by omega
    have hhi : 55296 + (c.toNat - 65536) / 1024 < 65536 := by omega
    have hlo : 56320 + (c.toNat - 65536) % 1024 < 65536 := by omega
    have hAhi : 55296 ≤ 55296 + (c.toNat - 65536) / 1024 ∧
        55296 + (c.toNat - 65536) / 1024 ≤ 56319 := by omega
    have hBlo : 56320 ≤ 56320 + (c.toNat - 65536) % 1024 ∧
        56320 + (c.toNat - 65536) % 1024 ≤ 57343 := by omega
    refine ⟨'u' :: hex4 (55296 + (c.toNat - 65536) / 1024) ++
        '\\' :: 'u' :: hex4 (56320 + (c.toNat - 65536) % 1024), ?_, ?_⟩
    · simp [escChar, h1, h2, h3, h4, h5, h6, h7, h8, h9, h10]
    · have hshape : ('u' :: hex4 (55296 + (c.toNat - 65536) / 1024) ++
          '\\' :: 'u' :: hex4 (56320 + (c.toNat - 65536) % 1024)) ++ t =
          'u' :: (hex4 (55296 + (c.toNat - 65536) / 1024) ++
            ('\\' :: 'u' :: (hex4 (56320 + (c.toNat - 65536) % 1024) ++ t))) := by
        simp
      rw [hshape, parseEsc_u_pair _ _ t hhi hlo hAhi hBlo]
      have harith : (55296 + (c.toNat - 65536) / 1024 - 55296) * 1024 +
          (56320 + (c.toNat - 65536) % 1024 - 56320) + 65536 = c.toNat := by omega
      rw [harith, Char.ofNat_toNat]

theorem parseStringBody_escList (cs : List Char) :
    ∀ fuel rest, cs.length < fuel →
      parseStringBody fuel (escList cs ++ '"' :: rest) = some (cs, rest) := by
  induction cs with
  | nil =>
      intro fuel rest hf
      match fuel, hf with
      | f + 1, _ => simp [escList, parseStringBody]
  | cons c t ih =>
      intro fuel rest hf
      match fuel, hf with
      | f + 1, hf =>
          rcases escChar_spec c (escList t ++ '"' :: rest) with ⟨he, hq, hb⟩ | ⟨e, he, hp⟩
          · have hsh : escList (c :: t) ++ '"' :: rest =
                c :: (escList t ++ '"' :: rest) := by
              rw [escList, he]; simp
            rw [hsh]
            simp only [parseStringBody, if_neg hq, if_neg hb,
              ih f rest (Nat.lt_of_succ_lt_succ hf)]
            rfl
          · have hsh : escList (c :: t) ++ '"' :: rest =
                '\\' :: (e ++ (escList t ++ '"' :: rest)) := by
              rw [escList, he]; simp
            rw [hsh]
            have hq2 : ('\\' : Char) ≠ '"' := by decide
            simp only [parseStringBody, if_neg hq2, if_pos rfl, hp, Option.some_bind,
              ih f rest (Nat.lt_of_succ_lt_succ hf)]
            rfl

theorem parseStringBody_renderJString (s : String) (fuel : Nat) (rest : List Char)
    (hf : s.data.length < fuel) :
    renderJString s ++ rest = '"' :: (escList s.data ++ '"' :: rest) ∧
    parseStringBody fuel (escList s.data ++ '"' :: rest) = some (s.data, rest) := by
  constructor
  · rw [renderJString]; simp
  · exact parseStringBody_escList s.data fuel rest hf

/-! ### The JSON document tree (ordered object fields) -/

mutual
/-- A JSON value; object fields are kept in order, mirroring Python dict
insertion order through `json.dump`/`json.load`. -/
inductive JValue where
  | jnull
  | jbool (b : Bool)
  | jnum (n : NumLit)
  | jstr (s : String)
  | jarr (xs : JArr)
  | jobj (fs : JObj)
/-- A list of JSON values. -/
inductive JArr where
  | anil
  | acons (x : JValue) (xs : JArr)
/-- An ordered list of JSON object fields. -/
inductive JObj where
  | onil
  | ocons (k : String) (v : JValue) (fs : JObj)
end

mutual
/-- Well-formedness: every numeric literal in the tree is well-formed. -/
def JValue.wf : JValue → Bool
  | .jnull => true
  | .jbool _ => true
  | .jnum n => n.wf
  | .jstr _ => true
  | .jarr xs => xs.wf
  | .jobj fs => fs.wf
/-- Well-formedness of an array. -/
def JArr.wf : JArr → Bool
  | .anil => true
  | .acons x xs => x.wf && xs.wf
/-- Well-formedness of object fields. -/
def JObj.wf : JObj → Bool
  | .onil => true
  | .ocons _ v fs => v.wf && fs.wf
end

mutual
/-- Structural size, used as a fuel bound for the parser. -/
def JValue.size : JValue → Nat
  | .jnull => 0
  | .jbool _ => 0
  | .jnum _ => 0
  | .jstr _ => 0
  | .jarr xs => xs.size + 1
  | .jobj fs => fs.size + 1
/-- Structural size of an array. -/
def JArr.size : JArr → Nat
  | .anil => 0
  | .acons x xs => x.size + xs.size + 1
/-- Structural size of object fields. -/
def JObj.size : JObj → Nat
  | .onil => 0
  | .ocons _ v fs => v.size + fs.size + 1
end

/-- `n` space characters, for the `indent=2` layout. -/
def spaces : Nat → List Char
  | 0 => []
  | n + 1 => ' ' :: spaces n

mutual
/-- Render a value at indentation level `ind`, matching
`json.dump(..., indent=2)`: empty containers are compact, non-empty ones put
each item on its own line indented two further, keys are followed by
`': '`. -/
def renderVal (ind : Nat) : JValue → List Char
  | .jnull => ['n', 'u', 'l', 'l']
  | .jbool true => ['t', 'r', 'u', 'e']
  | .jbool false => ['f', 'a', 'l', 's', 'e']
  | .jnum n => renderNum n
  | .jstr s => renderJString s
  | .jarr .anil => ['[', ']']
  | .jarr (.acons x xs) =>
      '[' :: '\n' :: (spaces (ind + 2) ++ (renderVal (ind + 2) x ++
        (renderArrTail (ind + 2) xs ++ ('\n' :: (spaces ind ++ (']' :: []))))))
  | .jobj .onil => ['{', '}']
  | .jobj (.ocons k v fs) =>
      '{' :: '\n' :: (spaces (ind + 2) ++ (renderJString k ++ (':' :: ' ' ::
        (renderVal (ind + 2) v ++ (renderObjTail (ind + 2) fs ++
          ('\n' :: (spaces ind ++ ('}' :: []))))))))
/-- Render the remaining array items (`,` + newline + indent before each). -/
def renderArrTail (ind : Nat) : JArr → List Char
  | .anil => []
  | .acons x xs =>
      ',' :: '\n' :: (spaces ind ++ (renderVal ind x ++ renderArrTail ind xs))
/-- Render the remaining object fields. -/
def renderObjTail (ind : Nat) : JObj → List Char
  | .onil => []
  | .ocons k v fs =>
      ',' :: '\n' :: (spaces ind ++ (renderJString k ++ (':' :: ' ' ::
        (renderVal ind v ++ renderObjTail ind fs))))
end

mutual
/-- Recursive-descent JSON value parser (model of `json.load`), with a fuel
bound on nesting/element recursion. -/
def parseVal : Nat → List Char → Option (JValue × List Char)
  | 0, _ => none
  | fuel + 1, cs0 =>
    match skipWs cs0 with
    | [] => none
    | c :: r =>
      if c = 'n' then
        match r with
        | 'u' :: 'l' :: 'l' :: r2 => some (.jnull, r2)
        | _ => none
      else if c = 't' then
        match r with
        | 'r' :: 'u' :: 'e' :: r2 => some (.jbool true, r2)
        | _ => none
      else if c = 'f' then
        match r with
        | 'a' :: 'l' :: 's' :: 'e' :: r2 => some (.jbool false, r2)
        | _ => none
      else if c = '"' then
        (parseStringBody (r.length + 1) r).map fun p => (.jstr (String.mk p.1), p.2)
      else if c = '[' then
        match skipWs r with
        | [] => none
        | c2 :: r2 =>
          if c2 = ']' then some (.jarr .anil, r2)
          else
            (parseVal fuel (c2 :: r2)).bind fun p =>
              (parseArrTail fuel p.2).map fun q => (.jarr (.acons p.1 q.1), q.2)
      else if c = '{' then
        match skipWs r with
        | [] => none
        | c2 :: r2 =>
          if c2 = '}' then some (.jobj .onil, r2)
          else if c2 = '"' then
            (parseStringBody (r2.length + 1) r2).bind fun kp =>
              (match skipWs kp.2 with
               | [] => none
               | c3 :: r3 => if c3 = ':' then parseVal fuel r3 else none).bind fun vp =>
                (parseObjTail fuel vp.2).map fun (q : JObj × List Char) =>
                  (.jobj (.ocons (String.mk kp.1) vp.1 q.1), q.2)
          else none
      else (parseNum (c :: r)).map fun p => (.jnum p.1, p.2)
/-- Parse the items after the first array element: `,` + value repeated,
closed by `]`. -/
def parseArrTail : Nat → List Char → Option (JArr × List Char)
  | 0, _ => none
  | fuel + 1, cs =>
    match skipWs cs with
    | [] => none
    | c :: r =>
      if c = ']' then some (.anil, r)
      else if c = ',' then
        (parseVal fuel r).bind fun p =>
          (parseArrTail fuel p.2).map fun q => (.acons p.1 q.1, q.2)
      else none
/-- Parse the fields after the first object field. -/
def parseObjTail : Nat → List Char → Option (JObj × List Char)
  | 0, _ => none
  | fuel + 1, cs =>
    match skipWs cs with
    | [] => none
    | c :: r =>
      if c = '}' then some (.onil, r)
      else if c = ',' then
        match skipWs r with
        | [] => none
        | c2 :: r2 =>
          if c2 = '"' then
            (parseStringBody (r2.length + 1) r2).bind fun kp =>
              (match skipWs kp.2 with
               | [] => none
               | c3 :: r3 => if c3 = ':' then parseVal fuel r3 else none).bind fun vp =>
                (parseObjTail fuel vp.2).map fun (q : JObj × List Char) =>
                  (.ocons (String.mk kp.1) vp.1 q.1, q.2)
          else none
      else none
end

/-- Model of `json.dump(v, f, indent=2)`: the serialized document text. -/
def jsonDumps (v : JValue) : String := String.mk (renderVal 0 v)

/-- Model of `json.load`: parse one value and require only trailing
whitespace. -/
def jsonLoads (s : String) : Option JValue :=
  match parseVal (s.data.length + 1) s.data with
  | some (v, rest) => if rest.all isJsonWs then some v else none
  | none => none

/-! ### Round-trip of the whole document -/

theorem spaces_all_ws (n : Nat) : ∀ c ∈ spaces n, isJsonWs c = true := by
  induction n with
  | zero => intro c hc; simp [spaces] at hc
  | succ m ih =>
      intro c hc
      rw [spaces] at hc
      rcases List.mem_cons.mp hc with rfl | hc
      · decide
      · exact ih c hc

theorem skipWs_append_ws (ws l : List Char) (h : ∀ c ∈ ws, isJsonWs c = true) :
    skipWs (ws ++ l) = skipWs l := by
  induction ws with
  | nil => rfl
  | cons c t ih =>
      rw [List.cons_append, skipWs, List.dropWhile_cons,
        if_pos (h c (List.mem_cons_self _ _))]
      exact ih (fun x hx => h x (List.mem_cons_of_mem _ hx))

theorem skipWs_cons_nonws {c : Char} (h : isJsonWs c = false) (l : List Char) :
    skipWs (c :: l) = c :: l := by
  rw [skipWs, List.dropWhile_cons]
  simp [h]

theorem escChar_ne_nil (c : Char) : escChar c ≠ [] := by
  rcases escChar_spec c [] with ⟨he, -, -⟩ | ⟨e, he, -⟩ <;> rw [he] <;> simp

theorem escList_length_ge (cs : List Char) : cs.length ≤ (escList cs).length := by
  induction cs with
  | nil => simp [escList]
  | cons c t ih =>
      rw [escList, List.length_append, List.length_cons]
      have h1 : 1 ≤ (escChar c).length := by
        rcases hne : escChar c with _ | ⟨a, b⟩
        · exact absurd hne (escChar_ne_nil c)
        · simp
      omega

theorem numStart_facts (c : Char) (h : c = '-' ∨ c.isDigit = true) :
    isJsonWs c = false ∧ c ≠ 'n' ∧ c ≠ 't' ∧ c ≠ 'f' ∧ c ≠ '"' ∧ c ≠ '[' ∧
      c ≠ '{' ∧ c ≠ ']' := by
  rcases h with rfl | h
  · decide
  · have hb : 48 ≤ c.toNat ∧ c.toNat ≤ 57 := by
      simp only [Char.isDigit, Bool.and_eq_true, decide_eq_true_eq] at h
      exact ⟨h.1, h.2⟩
    have hne : ∀ d : Char, ¬(48 ≤ d.toNat ∧ d.toNat ≤ 57) → c ≠ d :=
      fun d hd he => hd (he ▸ hb)
    have hws : isJsonWs c = false := by
      have h1 := hne ' ' (by decide)
      have h2 := hne '\t' (by decide)
      have h3 := hne '\n' (by decide)
      have h4 := hne '\r' (by decide)
      simp [isJsonWs, h1, h2, h3, h4]
    exact ⟨hws, hne 'n' (by decide), hne 't' (by decide), hne 'f' (by decide),
      hne '"' (by decide), hne '[' (by decide), hne '{' (by decide),
      hne ']' (by decide)⟩

theorem renderNum_head_cases (n : NumLit) (hwf : n.wf = true) (X : List Char) :
    ∃ c t, renderNum n ++ X = c :: t ∧ (c = '-' ∨ c.isDigit = true) := by
  obtain ⟨sgn, ip, fp, ex⟩ := n
  cases sgn with
  | true =>
      refine ⟨'-', ip ++ ((if fp.isEmpty then [] else '.' :: fp) ++
        (renderExpPart ex ++ X)), ?_, Or.inl rfl⟩
      simp [renderNum, renderExpPart, List.append_assoc]
  | false =>
      have hipne : ip ≠ [] := by
        intro hnil
        simp [NumLit.wf, hnil] at hwf
      obtain ⟨d, ds, rfl⟩ := List.exists_cons_of_ne_nil hipne
      have hd : d.isDigit = true := by
        simp only [NumLit.wf, Bool.and_eq_true, List.all_eq_true] at hwf
        exact hwf.1.1.2 d (List.mem_cons_self _ _)
      refine ⟨d, ds ++ ((if fp.isEmpty then [] else '.' :: fp) ++
        (renderExpPart ex ++ X)), ?_, Or.inr hd⟩
      simp only [renderNum, List.isEmpty_cons]
      simp [renderExpPart, List.append_assoc]

theorem renderVal_head (ind : Nat) (v : JValue) (hwf : v.wf = true) (X : List Char) :
    ∃ c t, renderVal ind v ++ X = c :: t ∧ isJsonWs c = false ∧ c ≠ ']' := by
  cases v with
  | jnull => exact ⟨'n', 'u' :: 'l' :: 'l' :: X, rfl, by decide, by decide⟩
  | jbool b =>
      cases b with
      | true => exact ⟨'t', 'r' :: 'u' :: 'e' :: X, rfl, by decide, by decide⟩
      | false => exact ⟨'f', 'a' :: 'l' :: 's' :: 'e' :: X, rfl, by decide, by decide⟩
  | jnum n =>
      obtain ⟨c, t, hct, hcd⟩ := renderNum_head_cases n hwf X
      obtain ⟨h1, -, -, -, -, -, -, h8⟩ := numStart_facts c hcd
      exact ⟨c, t, hct, h1, h8⟩
  | jstr s =>
      refine ⟨'"', escList s.data ++ '"' :: X, ?_, by decide, by decide⟩
      simp [renderVal, renderJString]
  | jarr xs =>
      cases xs with
      | anil => exact ⟨'[', ']' :: X, rfl, by decide, by decide⟩
      | acons x xs2 =>
          refine ⟨'[', ?_, ?_, by decide, by decide⟩
          · exact '\n' :: (spaces (ind + 2) ++ (renderVal (ind + 2) x ++
              (renderArrTail (ind + 2) xs2 ++ ('\n' :: (spaces ind ++ (']' :: []))))))
              ++ X
          · rw [renderVal]
            simp
  | jobj fs =>
      cases fs with
      | onil => exact ⟨'{', '}' :: X, rfl, by decide, by decide⟩
      | ocons k v fs2 =>
          refine ⟨'{', ?_, ?_, by decide, by decide⟩
          · exact '\n' :: (spaces (ind + 2) ++ (renderJString k ++ (':' :: ' ' ::
              (renderVal (ind + 2) v ++ (renderObjTail (ind + 2) fs2 ++
                ('\n' :: (spaces ind ++ ('}' :: [])))))))) ++ X
          · rw [renderVal]
            simp

theorem arrTail_delim (ind : Nat) (xs : JArr) (Y : List Char) :
    isNumDelim (renderArrTail ind xs ++ ('\n' :: Y)) = true := by
  cases xs <;> simp [renderArrTail, isNumDelim]

theorem objTail_delim (ind : Nat) (fs : JObj) (Y : List Char) :
    isNumDelim (renderObjTail ind fs ++ ('\n' :: Y)) = true := by
  cases fs <;> simp [renderObjTail, isNumDelim]

theorem spaces_length (n : Nat) : (spaces n).length = n := by
  induction n with
  | zero => rfl
  | succ m ih => rw [spaces, List.length_cons, ih]

theorem newline_spaces_ws (n : Nat) :
    ∀ c ∈ ('\n' :: spaces n : List Char), isJsonWs c = true := by
  intro ch hch
  rcases List.mem_cons.mp hch with rfl | hch
  · decide
  · exact spaces_all_ws n ch hch

theorem space_singleton_ws : ∀ c ∈ ([' '] : List Char), isJsonWs c = true := by
  intro ch hch
  simp only [List.mem_singleton] at hch
  subst hch
  decide

mutual

theorem parseVal_render (v : JValue) : ∀ fuel ind ws rest, v.size < fuel → v.wf = true →
    (∀ c ∈ ws, isJsonWs c = true) → isNumDelim rest = true →
    parseVal fuel (ws ++ (renderVal ind v ++ rest)) = some (v, rest) := by
  cases v with
  | jnull =>
      intro fuel ind ws rest hs hwf hws hd
      match fuel, hs with
      | f + 1, _ =>
        have hskip : skipWs (ws ++ (renderVal ind .jnull ++ rest)) =
            'n' :: ('u' :: 'l' :: 'l' :: rest) := by
          rw [skipWs_append_ws ws _ hws]
          exact skipWs_cons_nonws (by decide) _
        simp only [parseVal, hskip]
        simp
  | jbool b =>
      cases b with
      | true =>
          intro fuel ind ws rest hs hwf hws hd
          match fuel, hs with
          | f + 1, _ =>
            have hskip : skipWs (ws ++ (renderVal ind (.jbool true) ++ rest)) =
                't' :: ('r' :: 'u' :: 'e' :: rest) := by
              rw [skipWs_append_ws ws _ hws]
              exact skipWs_cons_nonws (by decide) _
            simp only [parseVal, hskip]
            simp
      | false =>
          intro fuel ind ws rest hs hwf hws hd
          match fuel, hs with
          | f + 1, _ =>
            have hskip : skipWs (ws ++ (renderVal ind (.jbool false) ++ rest)) =
                'f' :: ('a' :: 'l' :: 's' :: 'e' :: rest) := by
              rw [skipWs_append_ws ws _ hws]
              exact skipWs_cons_nonws (by decide) _
            simp only [parseVal, hskip]
            simp
  | jnum num =>
      intro fuel ind ws rest hs hwf hws hd
      match fuel, hs with
      | f + 1, _ =>
        obtain ⟨c, t, hct, hcd⟩ := renderNum_head_cases num hwf rest
        obtain ⟨hcw, hn, ht, hf2, hq, hlb, hlc, -⟩ := numStart_facts c hcd
        have hskip : skipWs (ws ++ (renderVal ind (.jnum num) ++ rest)) = c :: t := by
          rw [skipWs_append_ws ws _ hws]
          show skipWs (renderNum num ++ rest) = c :: t
          rw [hct]
          exact skipWs_cons_nonws hcw _
        simp only [parseVal, hskip]
        rw [if_neg hn, if_neg ht, if_neg hf2, if_neg hq, if_neg hlb, if_neg hlc]
        rw [← hct, parseNum_renderNum num rest hwf hd]
        rfl
  | jstr s =>
      intro fuel ind ws rest hs hwf hws hd
      match fuel, hs with
      | f + 1, _ =>
        have hskip : skipWs (ws ++ (renderVal ind (.jstr s) ++ rest)) =
            '"' :: (escList s.data ++ '"' :: rest) := by
          rw [skipWs_append_ws ws _ hws]
          have hsh : renderVal ind (.jstr s) ++ rest =
              '"' :: (escList s.data ++ '"' :: rest) := by
            simp [renderVal, renderJString]
          rw [hsh]
          exact skipWs_cons_nonws (by decide) _
        simp only [parseVal, hskip]
        rw [if_neg (by decide : ¬('"' : Char) = 'n'), if_neg (by decide : ¬('"' : Char) = 't'),
          if_neg (by decide : ¬('"' : Char) = 'f'), if_pos (by trivial)]
        have hlen : s.data.length < (escList s.data ++ '"' :: rest).length + 1 := by
          have := escList_length_ge s.data
          rw [List.length_append]
          omega
        rw [parseStringBody_escList s.data _ rest hlen]
        rfl
  | jarr xs =>
      cases xs with
      | anil =>
          intro fuel ind ws rest hs hwf hws hd
          match fuel, hs with
          | f + 1, _ =>
            have hskip : skipWs (ws ++ (renderVal ind (.jarr .anil) ++ rest)) =
                '[' :: (']' :: rest) := by
              rw [skipWs_append_ws ws _ hws]
              exact skipWs_cons_nonws (by decide) _
            simp only [parseVal, hskip]
            simp [skipWs_cons_nonws (show isJsonWs ']' = false by decide)]
      | acons x xs2 =>
          intro fuel ind ws rest hs hwf hws hd
          match fuel, hs with
          | f + 1, hs =>
            have hwx : x.wf = true ∧ xs2.wf = true := by
              have h2 : JArr.wf (.acons x xs2) = true := hwf
              simpa [JArr.wf, Bool.and_eq_true] using h2
            have hsx : x.size < f ∧ xs2.size < f := by
              have h2 : JValue.size (.jarr (.acons x xs2)) < f + 1 := hs
              simp only [JValue.size, JArr.size] at h2
              omega
            obtain ⟨c2, r2, hct, hcw, hcne⟩ := renderVal_head (ind + 2) x hwx.1
              (renderArrTail (ind + 2) xs2 ++ ('\n' :: (spaces ind ++ (']' :: rest))))
            have hskip : skipWs (ws ++ (renderVal ind (.jarr (.acons x xs2)) ++ rest)) =
                '[' :: ('\n' :: (spaces (ind + 2) ++ (renderVal (ind + 2) x ++
                  (renderArrTail (ind + 2) xs2 ++
                    ('\n' :: (spaces ind ++ (']' :: rest))))))) := by
              rw [skipWs_append_ws ws _ hws]
              have hsh : renderVal ind (.jarr (.acons x xs2)) ++ rest =
                  '[' :: ('\n' :: (spaces (ind + 2) ++ (renderVal (ind + 2) x ++
                    (renderArrTail (ind + 2) xs2 ++
                      ('\n' :: (spaces ind ++ (']' :: rest))))))) := by
                rw [renderVal]
                simp
              rw [hsh]
              exact skipWs_cons_nonws (by decide) _
            simp only [parseVal, hskip]
            rw [if_neg (by decide : ¬('[' : Char) = 'n'),
              if_neg (by decide : ¬('[' : Char) = 't'),
              if_neg (by decide : ¬('[' : Char) = 'f'),
              if_neg (by decide : ¬('[' : Char) = '"'), if_pos (by trivial)]
            have hskip2 : skipWs ('\n' :: (spaces (ind + 2) ++ (renderVal (ind + 2) x ++
                (renderArrTail (ind + 2) xs2 ++ ('\n' :: (spaces ind ++ (']' :: rest))))))) =
                c2 :: r2 := by
              rw [show ('\n' :: (spaces (ind + 2) ++ (renderVal (ind + 2) x ++
                  (renderArrTail (ind + 2) xs2 ++
                    ('\n' :: (spaces ind ++ (']' :: rest))))))) =
                  (('\n' :: spaces (ind + 2)) ++ (renderVal (ind + 2) x ++
                  (renderArrTail (ind + 2) xs2 ++
                    ('\n' :: (spaces ind ++ (']' :: rest)))))) from by simp]
              rw [skipWs_append_ws _ _ (newline_spaces_ws (ind + 2))]
              rw [hct]
              exact skipWs_cons_nonws hcw _
            rw [hskip2]
            show (if c2 = ']' then some (JValue.jarr JArr.anil, r2)
              else (parseVal f (c2 :: r2)).bind fun p =>
                Option.map (fun q => (JValue.jarr (JArr.acons p.1 q.1), q.2))
                  (parseArrTail f p.2)) =
              some (JValue.jarr (JArr.acons x xs2), rest)
            rw [if_neg hcne, ← hct]
            have hx := parseVal_render x f (ind + 2) []
              (renderArrTail (ind + 2) xs2 ++ ('\n' :: (spaces ind ++ (']' :: rest))))
              hsx.1 hwx.1 (by simp) (arrTail_delim (ind + 2) xs2 _)
            simp only [List.nil_append] at hx
            rw [hx]
            simp only [Option.some_bind]
            rw [parseArrTail_render xs2 f (ind + 2) ind rest hsx.2 hwx.2 hd]
            rfl
  | jobj fs =>
      cases fs with
      | onil =>
          intro fuel ind ws rest hs hwf hws hd
          match fuel, hs with
          | f + 1, _ =>
            have hskip : skipWs (ws ++ (renderVal ind (.jobj .onil) ++ rest)) =
                '{' :: ('}' :: rest) := by
              rw [skipWs_append_ws ws _ hws]
              exact skipWs_cons_nonws (by decide) _
            simp only [parseVal, hskip]
            simp [skipWs_cons_nonws (show isJsonWs '}' = false by decide)]
      | ocons k v fs2 =>
          intro fuel ind ws rest hs hwf hws hd
          match fuel, hs with
          | f + 1, hs =>
            have hwx : v.wf = true ∧ fs2.wf = true := by
              have h2 : JObj.wf (.ocons k v fs2) = true := hwf
              simpa [JObj.wf, Bool.and_eq_true] using h2
            have hsx : v.size < f ∧ fs2.size < f := by
              have h2 : JValue.size (.jobj (.ocons k v fs2)) < f + 1 := hs
              simp only [JValue.size, JObj.size] at h2
              omega
            have hskip : skipWs (ws ++ (renderVal ind (.jobj (.ocons k v fs2)) ++ rest)) =
                '{' :: ('\n' :: (spaces (ind + 2) ++ ('"' :: (escList k.data ++ '"' ::
                  (':' :: ' ' :: (renderVal (ind + 2) v ++ (renderObjTail (ind + 2) fs2 ++
                    ('\n' :: (spaces ind ++ ('}' :: rest)))))))))) := by
              rw [skipWs_append_ws ws _ hws]
              have hsh : renderVal ind (.jobj (.ocons k v fs2)) ++ rest =
                  '{' :: ('\n' :: (spaces (ind + 2) ++ ('"' :: (escList k.data ++ '"' ::
                    (':' :: ' ' :: (renderVal (ind + 2) v ++ (renderObjTail (ind + 2) fs2 ++
                      ('\n' :: (spaces ind ++ ('}' :: rest)))))))))) := by
                rw [renderVal, renderJString]
                simp
              rw [hsh]
              exact skipWs_cons_nonws (by decide) _
            simp only [parseVal, hskip]
            rw [if_neg (by decide : ¬('{' : Char) = 'n'),
              if_neg (by decide : ¬('{' : Char) = 't'),
              if_neg (by decide : ¬('{' : Char) = 'f'),
              if_neg (by decide : ¬('{' : Char) = '"'),
              if_neg (by decide : ¬('{' : Char) = '['), if_pos (by trivial)]
            have hskip2 : skipWs ('\n' :: (spaces (ind + 2) ++ ('"' :: (escList k.data ++
                '"' :: (':' :: ' ' :: (renderVal (ind + 2) v ++
                  (renderObjTail (ind + 2) fs2 ++
                    ('\n' :: (spaces ind ++ ('}' :: rest)))))))))) =
                '"' :: (escList k.data ++ '"' ::
                  (':' :: ' ' :: (renderVal (ind + 2) v ++ (renderObjTail (ind + 2) fs2 ++
                    ('\n' :: (spaces ind ++ ('}' :: rest))))))) := by
              rw [show ('\n' :: (spaces (ind + 2) ++ ('"' :: (escList k.data ++ '"' ::
                  (':' :: ' ' :: (renderVal (ind + 2) v ++ (renderObjTail (ind + 2) fs2 ++
                    ('\n' :: (spaces ind ++ ('}' :: rest)))))))))) =
                  (('\n' :: spaces (ind + 2)) ++ ('"' :: (escList k.data ++ '"' ::
                  (':' :: ' ' :: (renderVal (ind + 2) v ++ (renderObjTail (ind + 2) fs2 ++
                    ('\n' :: (spaces ind ++ ('}' :: rest))))))))) from by simp]
              rw [skipWs_append_ws _ _ (newline_spaces_ws (ind + 2))]
              exact skipWs_cons_nonws (by decide) _
            rw [hskip2]
            show (if ('"' : Char) = '}' then some (JValue.jobj JObj.onil,
                escList k.data ++ '"' :: (':' :: ' ' :: (renderVal (ind + 2) v ++
                  (renderObjTail (ind + 2) fs2 ++ ('\n' :: (spaces ind ++ ('}' :: rest)))))))
              else if ('"' : Char) = '"' then
                (parseStringBody ((escList k.data ++ '"' :: (':' :: ' ' ::
                  (renderVal (ind + 2) v ++ (renderObjTail (ind + 2) fs2 ++
                    ('\n' :: (spaces ind ++ ('}' :: rest))))))).length + 1)
                  (escList k.data ++ '"' :: (':' :: ' ' :: (renderVal (ind + 2) v ++
                    (renderObjTail (ind + 2) fs2 ++
                      ('\n' :: (spaces ind ++ ('}' :: rest)))))))).bind
                  fun kp =>
                    (match skipWs kp.2 with
                     | [] => none
                     | c3 :: r3 => if c3 = ':' then parseVal f r3 else none).bind fun vp =>
                      (parseObjTail f vp.2).map fun (q : JObj × List Char) =>
                        (.jobj (.ocons (String.mk kp.1) vp.1 q.1), q.2)
              else none) = some (JValue.jobj (.ocons k v fs2), rest)
            rw [if_neg (by decide : ¬('"' : Char) = '}'), if_pos (by trivial)]
            have hlen : k.data.length <
                (escList k.data ++ '"' :: (':' :: ' ' :: (renderVal (ind + 2) v ++
                  (renderObjTail (ind + 2) fs2 ++
                    ('\n' :: (spaces ind ++ ('}' :: rest))))))).length + 1 := by
              have := escList_length_ge k.data
              rw [List.length_append]
              omega
            rw [parseStringBody_escList k.data _ _ hlen]
            simp only [Option.some_bind]
            have hskip3 : skipWs (':' :: (' ' :: (renderVal (ind + 2) v ++
                (renderObjTail (ind + 2) fs2 ++
                  ('\n' :: (spaces ind ++ ('}' :: rest))))))) =
                ':' :: (' ' :: (renderVal (ind + 2) v ++ (renderObjTail (ind + 2) fs2 ++
                  ('\n' :: (spaces ind ++ ('}' :: rest)))))) :=
              skipWs_cons_nonws (by decide) _
            rw [hskip3]
            show (if (':' : Char) = ':' then parseVal f (' ' :: (renderVal (ind + 2) v ++
                (renderObjTail (ind + 2) fs2 ++ ('\n' :: (spaces ind ++ ('}' :: rest))))))
              else none).bind (fun vp => (parseObjTail f vp.2).map
                fun (q : JObj × List Char) =>
                  (JValue.jobj (.ocons (String.mk k.data) vp.1 q.1), q.2)) =
              some (JValue.jobj (.ocons k v fs2), rest)
            rw [if_pos (by trivial)]
            have hv := parseVal_render v f (ind + 2) [' ']
              (renderObjTail (ind + 2) fs2 ++ ('\n' :: (spaces ind ++ ('}' :: rest))))
              hsx.1 hwx.1 space_singleton_ws (objTail_delim (ind + 2) fs2 _)
            rw [show (' ' :: (renderVal (ind + 2) v ++ (renderObjTail (ind + 2) fs2 ++
                ('\n' :: (spaces ind ++ ('}' :: rest)))))) =
                [' '] ++ (renderVal (ind + 2) v ++ (renderObjTail (ind + 2) fs2 ++
                  ('\n' :: (spaces ind ++ ('}' :: rest))))) from by simp]
            rw [hv]
            simp only [Option.some_bind]
            rw [parseObjTail_render fs2 f (ind + 2) ind rest hsx.2 hwx.2 hd]
            rfl

theorem parseArrTail_render (xs : JArr) : ∀ fuel ind m rest, xs.size < fuel →
    xs.wf = true → isNumDelim rest = true →
    parseArrTail fuel (renderArrTail ind xs ++ ('\n' :: (spaces m ++ (']' :: rest)))) =
      some (xs, rest) := by
  cases xs with
  | anil =>
      intro fuel ind m rest hs hwf hd
      match fuel, hs with
      | f + 1, _ =>
        have hskip : skipWs (renderArrTail ind .anil ++
            ('\n' :: (spaces m ++ (']' :: rest)))) = ']' :: rest := by
          show skipWs ([] ++ ('\n' :: (spaces m ++ (']' :: rest)))) = ']' :: rest
          rw [List.nil_append,
            show ('\n' :: (spaces m ++ (']' :: rest))) =
              ('\n' :: spaces m) ++ (']' :: rest) from by simp,
            skipWs_append_ws _ _ (newline_spaces_ws m)]
          exact skipWs_cons_nonws (by decide) _
        simp only [parseArrTail, hskip]
        simp
  | acons x xs2 =>
      intro fuel ind m rest hs hwf hd
      match fuel, hs with
      | f + 1, hs =>
        have hwx : x.wf = true ∧ xs2.wf = true := by
          have h2 : JArr.wf (.acons x xs2) = true := hwf
          simpa [JArr.wf, Bool.and_eq_true] using h2
        have hsx : x.size < f ∧ xs2.size < f := by
          have h2 : JArr.size (.acons x xs2) < f + 1 := hs
          simp only [JArr.size] at h2
          omega
        have hskip : skipWs (renderArrTail ind (.acons x xs2) ++
            ('\n' :: (spaces m ++ (']' :: rest)))) =
            ',' :: ('\n' :: (spaces ind ++ (renderVal ind x ++ (renderArrTail ind xs2 ++
              ('\n' :: (spaces m ++ (']' :: rest))))))) := by
          have hsh : renderArrTail ind (.acons x xs2) ++
              ('\n' :: (spaces m ++ (']' :: rest))) =
              ',' :: ('\n' :: (spaces ind ++ (renderVal ind x ++ (renderArrTail ind xs2 ++
                ('\n' :: (spaces m ++ (']' :: rest))))))) := by
            rw [renderArrTail]
            simp
          rw [hsh]
          exact skipWs_cons_nonws (by decide) _
        simp only [parseArrTail, hskip]
        show (if (',' : Char) = ']' then some (JArr.anil,
            '\n' :: (spaces ind ++ (renderVal ind x ++ (renderArrTail ind xs2 ++
              ('\n' :: (spaces m ++ (']' :: rest)))))))
          else if (',' : Char) = ',' then
            (parseVal f ('\n' :: (spaces ind ++ (renderVal ind x ++
              (renderArrTail ind xs2 ++ ('\n' :: (spaces m ++ (']' :: rest)))))))).bind
              fun p => Option.map (fun (q : JArr × List Char) =>
                (JArr.acons p.1 q.1, q.2)) (parseArrTail f p.2)
          else none) = some (JArr.acons x xs2, rest)
        rw [if_neg (by decide : ¬(',' : Char) = ']'), if_pos (by trivial)]
        have hx := parseVal_render x f ind ('\n' :: spaces ind)
          (renderArrTail ind xs2 ++ ('\n' :: (spaces m ++ (']' :: rest))))
          hsx.1 hwx.1 (newline_spaces_ws ind) (arrTail_delim ind xs2 _)
        rw [show ('\n' :: (spaces ind ++ (renderVal ind x ++ (renderArrTail ind xs2 ++
            ('\n' :: (spaces m ++ (']' :: rest))))))) =
            ('\n' :: spaces ind) ++ (renderVal ind x ++ (renderArrTail ind xs2 ++
              ('\n' :: (spaces m ++ (']' :: rest))))) from by simp]
        rw [hx]
        simp only [Option.some_bind]
        rw [parseArrTail_render xs2 f ind m rest hsx.2 hwx.2 hd]
        rfl

theorem parseObjTail_render (fs : JObj) : ∀ fuel ind m rest, fs.size < fuel →
    fs.wf = true → isNumDelim rest = true →
    parseObjTail fuel (renderObjTail ind fs ++ ('\n' :: (spaces m ++ ('}' :: rest)))) =
      some (fs, rest) := by
  cases fs with
  | onil =>
      intro fuel ind m rest hs hwf hd
      match fuel, hs with
      | f + 1, _ =>
        have hskip : skipWs (renderObjTail ind .onil ++
            ('\n' :: (spaces m ++ ('}' :: rest)))) = '}' :: rest := by
          show skipWs ([] ++ ('\n' :: (spaces m ++ ('}' :: rest)))) = '}' :: rest
          rw [List.nil_append,
            show ('\n' :: (spaces m ++ ('}' :: rest))) =
              ('\n' :: spaces m) ++ ('}' :: rest) from by simp,
            skipWs_append_ws _ _ (newline_spaces_ws m)]
          exact skipWs_cons_nonws (by decide) _
        simp only [parseObjTail, hskip]
        simp
  | ocons k v fs2 =>
      intro fuel ind m rest hs hwf hd
      match fuel, hs with
      | f + 1, hs =>
        have hwx : v.wf = true ∧ fs2.wf = true := by
          have h2 : JObj.wf (.ocons k v fs2) = true := hwf
          simpa [JObj.wf, Bool.and_eq_true] using h2
        have hsx : v.size < f ∧ fs2.size < f := by
          have h2 : JObj.size (.ocons k v fs2) < f + 1 := hs
          simp only [JObj.size] at h2
          omega
        have hskip : skipWs (renderObjTail ind (.ocons k v fs2) ++
            ('\n' :: (spaces m ++ ('}' :: rest)))) =
            ',' :: ('\n' :: (spaces ind ++ ('"' :: (escList k.data ++ '"' ::
              (':' :: ' ' :: (renderVal ind v ++ (renderObjTail ind fs2 ++
                ('\n' :: (spaces m ++ ('}' :: rest)))))))))) := by
          have hsh : renderObjTail ind (.ocons k v fs2) ++
              ('\n' :: (spaces m ++ ('}' :: rest))) =
              ',' :: ('\n' :: (spaces ind ++ ('"' :: (escList k.data ++ '"' ::
                (':' :: ' ' :: (renderVal ind v ++ (renderObjTail ind fs2 ++
                  ('\n' :: (spaces m ++ ('}' :: rest)))))))))) := by
            rw [renderObjTail, renderJString]
            simp
          rw [hsh]
          exact skipWs_cons_nonws (by decide) _
        simp only [parseObjTail, hskip]
        rw [if_neg (by decide : ¬(',' : Char) = '}'), if_pos (by trivial)]
        have hskip2 : skipWs ('\n' :: (spaces ind ++ ('"' :: (escList k.data ++ '"' ::
            (':' :: ' ' :: (renderVal ind v ++ (renderObjTail ind fs2 ++
              ('\n' :: (spaces m ++ ('}' :: rest)))))))))) =
            '"' :: (escList k.data ++ '"' :: (':' :: ' ' :: (renderVal ind v ++
              (renderObjTail ind fs2 ++ ('\n' :: (spaces m ++ ('}' :: rest))))))) := by
          rw [show ('\n' :: (spaces ind ++ ('"' :: (escList k.data ++ '"' ::
              (':' :: ' ' :: (renderVal ind v ++ (renderObjTail ind fs2 ++
                ('\n' :: (spaces m ++ ('}' :: rest)))))))))) =
              ('\n' :: spaces ind) ++ ('"' :: (escList k.data ++ '"' ::
              (':' :: ' ' :: (renderVal ind v ++ (renderObjTail ind fs2 ++
                ('\n' :: (spaces m ++ ('}' :: rest)))))))) from by simp]
          rw [skipWs_append_ws _ _ (newline_spaces_ws ind)]
          exact skipWs_cons_nonws (by decide) _
        rw [hskip2]
        show (if ('"' : Char) = '"' then
            (parseStringBody ((escList k.data ++ '"' :: (':' :: ' ' :: (renderVal ind v ++
              (renderObjTail ind fs2 ++
                ('\n' :: (spaces m ++ ('}' :: rest))))))).length + 1)
              (escList k.data ++ '"' :: (':' :: ' ' :: (renderVal ind v ++
                (renderObjTail ind fs2 ++ ('\n' :: (spaces m ++ ('}' :: rest)))))))).bind
              fun kp =>
                (match skipWs kp.2 with
                 | [] => none
                 | c3 :: r3 => if c3 = ':' then parseVal f r3 else none).bind fun vp =>
                  (parseObjTail f vp.2).map fun (q : JObj × List Char) =>
                    (.ocons (String.mk kp.1) vp.1 q.1, q.2)
          else none) = some (JObj.ocons k v fs2, rest)
        rw [if_pos (by trivial)]
        have hlen : k.data.length <
            (escList k.data ++ '"' :: (':' :: ' ' :: (renderVal ind v ++
              (renderObjTail ind fs2 ++
                ('\n' :: (spaces m ++ ('}' :: rest))))))).length + 1 := by
          have := escList_length_ge k.data
          rw [List.length_append]
          omega
        rw [parseStringBody_escList k.data _ _ hlen]
        simp only [Option.some_bind]
        have hskip3 : skipWs (':' :: (' ' :: (renderVal ind v ++ (renderObjTail ind fs2 ++
            ('\n' :: (spaces m ++ ('}' :: rest))))))) =
            ':' :: (' ' :: (renderVal ind v ++ (renderObjTail ind fs2 ++
              ('\n' :: (spaces m ++ ('}' :: rest)))))) :=
          skipWs_cons_nonws (by decide) _
        rw [hskip3]
        show (if (':' : Char) = ':' then parseVal f (' ' :: (renderVal ind v ++
            (renderObjTail ind fs2 ++ ('\n' :: (spaces m ++ ('}' :: rest))))))
          else none).bind (fun vp => (parseObjTail f vp.2).map
            fun (q : JObj × List Char) =>
              (JObj.ocons (String.mk k.data) vp.1 q.1, q.2)) =
          some (JObj.ocons k v fs2, rest)
        rw [if_pos (by trivial)]
        have hv := parseVal_render v f ind [' ']
          (renderObjTail ind fs2 ++ ('\n' :: (spaces m ++ ('}' :: rest))))
          hsx.1 hwx.1 space_singleton_ws (objTail_delim ind fs2 _)
        rw [show (' ' :: (renderVal ind v ++ (renderObjTail ind fs2 ++
            ('\n' :: (spaces m ++ ('}' :: rest)))))) =
            [' '] ++ (renderVal ind v ++ (renderObjTail ind fs2 ++
              ('\n' :: (spaces m ++ ('}' :: rest))))) from by simp]
        rw [hv]
        simp only [Option.some_bind]
        rw [parseObjTail_render fs2 f ind m rest hsx.2 hwx.2 hd]
        rfl

end

mutual

theorem size_le_renderVal (ind : Nat) (v : JValue) :
    v.size ≤ (renderVal ind v).length := by
  cases v with
  | jnull => simp [JValue.size, renderVal]
  | jbool b => cases b <;> simp [JValue.size, renderVal]
  | jnum n => simp [JValue.size]
  | jstr s => simp [JValue.size]
  | jarr xs =>
      cases xs with
      | anil => simp [JValue.size, JArr.size, renderVal]
      | acons x xs2 =>
          have h1 := size_le_renderVal (ind + 2) x
          have h2 := size_le_renderArrTail (ind + 2) xs2
          simp only [JValue.size, JArr.size, renderVal, List.length_cons,
            List.length_append, spaces_length]
          omega
  | jobj fs =>
      cases fs with
      | onil => simp [JValue.size, JObj.size, renderVal]
      | ocons k v2 fs2 =>
          have h1 := size_le_renderVal (ind + 2) v2
          have h2 := size_le_renderObjTail (ind + 2) fs2
          simp only [JValue.size, JObj.size, renderVal, List.length_cons,
            List.length_append, spaces_length]
          omega

theorem size_le_renderArrTail (ind : Nat) (xs : JArr) :
    xs.size ≤ (renderArrTail ind xs).length := by
  cases xs with
  | anil => simp [JArr.size, renderArrTail]
  | acons x xs2 =>
      have h1 := size_le_renderVal ind x
      have h2 := size_le_renderArrTail ind xs2
      simp only [JArr.size, renderArrTail, List.length_cons, List.length_append,
        spaces_length]
      omega

theorem size_le_renderObjTail (ind : Nat) (fs : JObj) :
    fs.size ≤ (renderObjTail ind fs).length := by
  cases fs with
  | onil => simp [JObj.size, renderObjTail]
  | ocons k v fs2 =>
      have h1 := size_le_renderVal ind v
      have h2 := size_le_renderObjTail ind fs2
      simp only [JObj.size, renderObjTail, List.length_cons, List.length_append,
        spaces_length]
      omega

end

theorem jsonLoads_jsonDumps (v : JValue) (hwf : v.wf = true) :
    jsonLoads (jsonDumps v) = some v := by
  have hsize : v.size < (renderVal 0 v).length + 1 :=
    Nat.lt_succ_of_le (size_le_renderVal 0 v)
  have hmain := parseVal_render v ((renderVal 0 v).length + 1) 0 [] [] hsize hwf
    (by simp) rfl
  simp only [List.nil_append, List.append_nil] at hmain
  show (match parseVal (((String.mk (renderVal 0 v)).data).length + 1)
      ((String.mk (renderVal 0 v)).data) with
    | some (w, rest) => if rest.all isJsonWs then some w else none
    | none => none) = some v
  rw [show ((String.mk (renderVal 0 v)).data) = renderVal 0 v from rfl, hmain]
  rfl

/-! ### The persisted session document

`run_tools` builds `session_data` with the keys `session_id`, `timestamp`,
`criteria`, `tools`, `results`, `summary` (the last never filled before
`_save_session`), each tool result carrying `tool`, `command`, `success`,
`output`, `error`, `execution_time`, `attempts` and — after a successful
`result.update(attempt_result)` — a trailing `return_code`.  Numbers are
held as the decimal literals `json.dump` writes for them. -/

/-- One recorded `ExecutionAttempt` as serialized. -/
structure AttemptDoc where
  success : Bool
  output : String
  error : String
  return_code : NumLit
  execution_time : NumLit
  deriving DecidableEq

/-- One `ToolResult` dictionary as serialized. -/
structure ToolResultDoc where
  tool : String
  command : String
  success : Bool
  output : String
  error : String
  execution_time : NumLit
  return_code : Option NumLit
  attempts : List AttemptDoc
  deriving DecidableEq

/-- The `session_data` dictionary as serialized: results keyed by tool name
in execution order. -/
structure SessionDoc where
  session_id : String
  timestamp : String
  criteria : String
  tools : List ToolInfo
  results : List (String × ToolResultDoc)
  deriving DecidableEq

/-- Embed a Lean list into the JSON array syntax. -/
def jarrOfList : List JValue → JArr
  | [] => .anil
  | x :: xs => .acons x (jarrOfList xs)

/-- Embed an ordered field list into the JSON object syntax. -/
def jobjOfList : List (String × JValue) → JObj
  | [] => .onil
  | (k, v) :: fs => .ocons k v (jobjOfList fs)

/-- Serialize one attempt. -/
def attemptToJson (a : AttemptDoc) : JValue :=
  .jobj (jobjOfList [("success", .jbool a.success), ("output", .jstr a.output),
    ("error", .jstr a.error), ("return_code", .jnum a.return_code),
    ("execution_time", .jnum a.execution_time)])

/-- Serialize one tool result (the `return_code` key exists only after the
success-path `result.update`). -/
def toolResultToJson (r : ToolResultDoc) : JValue :=
  .jobj (jobjOfList (
    [("tool", .jstr r.tool), ("command", .jstr r.command),
     ("success", .jbool r.success), ("output", .jstr r.output),
     ("error", .jstr r.error), ("execution_time", .jnum r.execution_time),
     ("attempts", .jarr (jarrOfList (r.attempts.map attemptToJson)))] ++
    (match r.return_code with
     | none => []
     | some n => [("return_code", .jnum n)])))

/-- Serialize a tool-list entry. -/
def toolInfoToJson (t : ToolInfo) : JValue :=
  .jobj (jobjOfList [("name", .jstr t.name),
    ("command_template", .jstr t.command_template)])

/-- Serialize the whole session record, fields in the order `run_tools`
creates them; `results` preserves execution order. -/
def sessionToJson (sd : SessionDoc) : JValue :=
  .jobj (jobjOfList [
    ("session_id", .jstr sd.session_id),
    ("timestamp", .jstr sd.timestamp),
    ("criteria", .jstr sd.criteria),
    ("tools", .jarr (jarrOfList (sd.tools.map toolInfoToJson))),
    ("results", .jobj (jobjOfList (sd.results.map fun p => (p.1, toolResultToJson p.2)))),
    ("summary", .jobj .onil)])

/-- All numeric literals of an attempt are well-formed. -/
def AttemptDoc.wfNums (a : AttemptDoc) : Bool :=
  a.return_code.wf && a.execution_time.wf

/-- All numeric literals of a tool result are well-formed. -/
def ToolResultDoc.wfNums (r : ToolResultDoc) : Bool :=
  r.execution_time.wf && r.attempts.all AttemptDoc.wfNums &&
    (match r.return_code with
     | none => true
     | some n => n.wf)

/-- All numeric literals of a session document are well-formed. -/
def SessionDoc.wfNums (sd : SessionDoc) : Bool :=
  sd.results.all fun p => p.2.wfNums

/-- Model of `_save_session`: the text written to the per-session file. -/
def save_session_doc (sd : SessionDoc) : String := jsonDumps (sessionToJson sd)

/-- Model of `load_session`: parse the file text back into the document. -/
def load_session_doc (text : String) : Option JValue := jsonLoads text

theorem jarrOfList_wf (xs : List JValue) (h : ∀ x ∈ xs, x.wf = true) :
    (jarrOfList xs).wf = true := by
  induction xs with
  | nil => rfl
  | cons x t ih =>
      simp only [jarrOfList, JArr.wf, Bool.and_eq_true]
      exact ⟨h x (List.mem_cons_self _ _), ih fun y hy => h y (List.mem_cons_of_mem _ hy)⟩

theorem jobjOfList_wf (fs : List (String × JValue)) (h : ∀ p ∈ fs, p.2.wf = true) :
    (jobjOfList fs).wf = true := by
  induction fs with
  | nil => rfl
  | cons p t ih =>
      obtain ⟨k, v⟩ := p
      simp only [jobjOfList, JObj.wf, Bool.and_eq_true]
      exact ⟨h (k, v) (List.mem_cons_self _ _),
        ih fun q hq => h q (List.mem_cons_of_mem _ hq)⟩

theorem attemptToJson_wf (a : AttemptDoc) (h : a.wfNums = true) :
    (attemptToJson a).wf = true := by
  simp only [AttemptDoc.wfNums, Bool.and_eq_true] at h
  show (jobjOfList _).wf = true
  apply jobjOfList_wf
  intro p hp
  simp only [List.mem_cons, List.mem_singleton] at hp
  rcases hp with rfl | rfl | rfl | rfl | rfl | h2
  · rfl
  · rfl
  · rfl
  · exact h.1
  · exact h.2
  · simp at h2

theorem toolResultToJson_wf (r : ToolResultDoc) (h : r.wfNums = true) :
    (toolResultToJson r).wf = true := by
  simp only [ToolResultDoc.wfNums, Bool.and_eq_true] at h
  show (jobjOfList _).wf = true
  apply jobjOfList_wf
  intro p hp
  simp only [List.cons_append, List.nil_append, List.mem_cons] at hp
  rcases hp with rfl | rfl | rfl | rfl | rfl | rfl | rfl | h2
  · rfl
  · rfl
  · rfl
  · rfl
  · rfl
  · exact h.1.1
  · show (jarrOfList _).wf = true
    apply jarrOfList_wf
    intro x hx
    obtain ⟨a, ha, rfl⟩ := List.mem_map.mp hx
    exact attemptToJson_wf a (by
      have := h.1.2
      rw [List.all_eq_true] at this
      exact this a ha)
  · match hrc : r.return_code, h.2 with
    | none, _ => rw [hrc] at h2; simp at h2
    | some n, h2w =>
        rw [hrc] at h2
        simp only [List.mem_singleton] at h2
        subst h2
        exact h2w

theorem sessionToJson_wf (sd : SessionDoc) (h : sd.wfNums = true) :
    (sessionToJson sd).wf = true := by
  simp only [SessionDoc.wfNums, List.all_eq_true] at h
  show (jobjOfList _).wf = true
  apply jobjOfList_wf
  intro p hp
  simp only [List.mem_cons, List.mem_singleton] at hp
  rcases hp with rfl | rfl | rfl | rfl | rfl | rfl | h2
  · rfl
  · rfl
  · rfl
  · show (jarrOfList _).wf = true
    apply jarrOfList_wf
    intro x hx
    obtain ⟨t, ht, rfl⟩ := List.mem_map.mp hx
    rfl
  · show JValue.wf (.jobj (jobjOfList _)) = true
    show (jobjOfList _).wf = true
    apply jobjOfList_wf
    intro q hq
    obtain ⟨pr, hpr, rfl⟩ := List.mem_map.mp hq
    exact toolResultToJson_wf pr.2 (h pr hpr)
  · rfl
  · simp at h2

theorem jarrOfList_inj {xs ys : List JValue} (h : jarrOfList xs = jarrOfList ys) :
    xs = ys := by
  induction xs generalizing ys with
  | nil =>
      cases ys with
      | nil => rfl
      | cons y t => simp [jarrOfList] at h
  | cons x t ih =>
      cases ys with
      | nil => simp [jarrOfList] at h
      | cons y u =>
          simp only [jarrOfList, JArr.acons.injEq] at h
          rw [h.1, ih h.2]

theorem jobjOfList_inj {xs ys : List (String × JValue)} (h : jobjOfList xs = jobjOfList ys) :
    xs = ys := by
  induction xs generalizing ys with
  | nil =>
      cases ys with
      | nil => rfl
      | cons y t =>
          obtain ⟨k, v⟩ := y
          simp [jobjOfList] at h
  | cons x t ih =>
      obtain ⟨k, v⟩ := x
      cases ys with
      | nil => simp [jobjOfList] at h
      | cons y u =>
          obtain ⟨k2, v2⟩ := y
          simp only [jobjOfList, JObj.ocons.injEq] at h
          rw [h.1, h.2.1, ih h.2.2]

theorem toolInfoToJson_inj {a b : ToolInfo} (h : toolInfoToJson a = toolInfoToJson b) :
    a = b := by
  simp only [toolInfoToJson, JValue.jobj.injEq] at h
  have h2 := jobjOfList_inj h
  simp only [List.cons.injEq, Prod.mk.injEq, JValue.jstr.injEq] at h2
  obtain ⟨a1, a2⟩ := a
  obtain ⟨b1, b2⟩ := b
  simp_all

theorem attemptToJson_inj {a b : AttemptDoc} (h : attemptToJson a = attemptToJson b) :
    a = b := by
  simp only [attemptToJson, JValue.jobj.injEq] at h
  have h2 := jobjOfList_inj h
  simp only [List.cons.injEq, Prod.mk.injEq, JValue.jstr.injEq, JValue.jbool.injEq,
    JValue.jnum.injEq] at h2
  obtain ⟨a1, a2, a3, a4, a5⟩ := a
  obtain ⟨b1, b2, b3, b4, b5⟩ := b
  simp_all

theorem toolResultToJson_inj {a b : ToolResultDoc}
    (h : toolResultToJson a = toolResultToJson b) : a = b := by
  simp only [toolResultToJson, JValue.jobj.injEq] at h
  have h2 := jobjOfList_inj h
  simp only [List.cons_append, List.nil_append, List.cons.injEq, Prod.mk.injEq,
    JValue.jstr.injEq, JValue.jbool.injEq, JValue.jnum.injEq, JValue.jarr.injEq] at h2
  obtain ⟨⟨-, h1⟩, ⟨-, h2'⟩, ⟨-, h3⟩, ⟨-, h4⟩, ⟨-, h5⟩, ⟨-, h6⟩, ⟨-, h7⟩, h8⟩ := h2
  have hatt : a.attempts = b.attempts := by
    have := jarrOfList_inj h7
    exact List.map_injective_iff.mpr (fun x y hxy => attemptToJson_inj hxy) this
  have hrc : a.return_code = b.return_code := by
    match hra : a.return_code, hrb : b.return_code with
    | none, none => rfl
    | none, some n => rw [hra, hrb] at h8; simp at h8
    | some n, none => rw [hra, hrb] at h8; simp at h8
    | some n, some m =>
        rw [hra, hrb] at h8
        simp only [List.cons.injEq, Prod.mk.injEq, JValue.jnum.injEq] at h8
        rw [h8.1.2]
  obtain ⟨a1, a2, a3, a4, a5, a6, a7, a8⟩ := a
  obtain ⟨b1, b2, b3, b4, b5, b6, b7, b8⟩ := b
  simp_all

theorem sessionToJson_inj {a b : SessionDoc} (h : sessionToJson a = sessionToJson b) :
    a = b := by
  simp only [sessionToJson, JValue.jobj.injEq] at h
  have h2 := jobjOfList_inj h
  simp only [List.cons.injEq, Prod.mk.injEq, JValue.jstr.injEq, JValue.jarr.injEq,
    JValue.jobj.injEq] at h2
  obtain ⟨⟨-, h1⟩, ⟨-, h2'⟩, ⟨-, h3⟩, ⟨-, h4⟩, ⟨-, h5⟩, -⟩ := h2
  have htools : a.tools = b.tools := by
    have := jarrOfList_inj h4
    exact List.map_injective_iff.mpr (fun x y hxy => toolInfoToJson_inj hxy) this
  have hres : a.results = b.results := by
    have hl := jobjOfList_inj h5
    refine List.map_injective_iff.mpr ?_ hl
    intro p q hpq
    simp only [Prod.mk.injEq] at hpq
    obtain ⟨p1, p2⟩ := p
    obtain ⟨q1, q2⟩ := q
    simp only [Prod.mk.injEq]
    exact ⟨hpq.1, toolResultToJson_inj hpq.2⟩
  obtain ⟨a1, a2, a3, a4, a5⟩ := a
  obtain ⟨b1, b2, b3, b4, b5⟩ := b
  simp_all

/-! ### Supporting lemmas: substring containment -/

theorem isPrefixOf_append (n s r : List Char) (h : n.isPrefixOf s = true) :
    n.isPrefixOf (s ++ r) = true := by
  induction n generalizing s with
  | nil => simp [List.isPrefixOf]
  | cons c t ih =>
      cases s with
      | nil => simp [List.isPrefixOf] at h
      | cons d u =>
          simp only [List.isPrefixOf, Bool.and_eq_true] at h ⊢
          exact ⟨h.1, ih u h.2⟩

theorem infixOf_append_left (n l r : List Char) (h : infixOf n l = true) :
    infixOf n (l ++ r) = true := by
  induction l with
  | nil =>
      simp only [infixOf, List.isEmpty_iff] at h
      subst h
      cases r with
      | nil => rfl
      | cons c t => simp [infixOf, List.isPrefixOf]
  | cons c t ih =>
      simp only [infixOf, Bool.or_eq_true] at h ⊢
      rcases h with h | h
      · exact Or.inl (isPrefixOf_append n (c :: t) r h)
      · exact Or.inr (ih h)

theorem infixOf_append_right (n l r : List Char) (h : infixOf n r = true) :
    infixOf n (l ++ r) = true := by
  induction l with
  | nil => simpa using h
  | cons c t ih =>
      simp only [List.cons_append, infixOf, Bool.or_eq_true]
      exact Or.inr ih

theorem pyIn_append_left (n a b : String) (h : pyIn n a = true) : pyIn n (a ++ b) = true := by
  unfold pyIn at *
  rw [show (a ++ b).toList = a.toList ++ b.toList from congrArg String.data rfl]
  exact infixOf_append_left _ _ _ h

theorem pyIn_append_right (n a b : String) (h : pyIn n b = true) : pyIn n (a ++ b) = true := by
  unfold pyIn at *
  rw [show (a ++ b).toList = a.toList ++ b.toList from congrArg String.data rfl]
  exact infixOf_append_right _ _ _ h

theorem string_ne_empty_of_data_ne_nil {s : String} (h : s.data ≠ []) : s ≠ "" := by
  intro h2
  subst h2
  simp at h

theorem str_with_space_ne_empty (a b : String) : a ++ " " ++ b ≠ "" := by
  apply string_ne_empty_of_data_ne_nil
  show (a.data ++ [' ']) ++ b.data ≠ []
  simp

/-! ### Supporting lemmas: the retry controller -/

theorem retryAttempts_len_le (eo : Nat → String → ExecAttempt)
    (fx : String → String → String → String) (tool : String) :
    ∀ fuel idx cmd, (retryAttempts eo fx tool fuel idx cmd).length ≤ fuel := by
  intro fuel
  induction fuel with
  | zero => intro idx cmd; simp [retryAttempts]
  | succ f ih =>
      intro idx cmd
      simp only [retryAttempts]
      split_ifs
      · simp
      · simp
      · simp
      · have := ih (idx + 1) (fx tool cmd (eo idx cmd).error)
        simp only [List.length_cons]
        omega

theorem retryAttempts_ne_nil (eo : Nat → String → ExecAttempt)
    (fx : String → String → String → String) (tool : String) (f idx : Nat) (cmd : String) :
    retryAttempts eo fx tool (f + 1) idx cmd ≠ [] := by
  simp only [retryAttempts]
  split_ifs <;> simp

theorem retryAttempts_get (eo : Nat → String → ExecAttempt)
    (fx : String → String → String → String) (tool : String) :
    ∀ fuel idx cmd i, i < (retryAttempts eo fx tool fuel idx cmd).length →
      ∃ c, (retryAttempts eo fx tool fuel idx cmd)[i]? = some (eo (idx + i) c) := by
  intro fuel
  induction fuel with
  | zero => intro idx cmd i hi; simp [retryAttempts] at hi
  | succ f ih =>
      intro idx cmd i hi
      simp only [retryAttempts] at hi ⊢
      split_ifs at hi ⊢ with h1 h2 h3
      · have hi0 : i = 0 := by simp at hi; omega
        subst hi0
        exact ⟨cmd, by simp⟩
      · have hi0 : i = 0 := by simp at hi; omega
        subst hi0
        exact ⟨cmd, by simp⟩
      · have hi0 : i = 0 := by simp at hi; omega
        subst hi0
        exact ⟨cmd, by simp⟩
      · cases i with
        | zero => exact ⟨cmd, by simp⟩
        | succ j =>
            have hj : j < (retryAttempts eo fx tool f (idx + 1)
                (fx tool cmd (eo idx cmd).error)).length := by
              simp only [List.length_cons] at hi
              omega
            obtain ⟨c, hc⟩ := ih (idx + 1) (fx tool cmd (eo idx cmd).error) j hj
            refine ⟨c, ?_⟩
            rw [show idx + (j + 1) = idx + 1 + j from by omega]
            simpa using hc

theorem execute_tool_with_retry_attempts (eo : Nat → String → ExecAttempt)
    (fx : String → String → String → String) (tool cmd : String) (mr : Nat) :
    (execute_tool_with_retry eo fx tool cmd mr).attempts =
      retryAttempts eo fx tool (mr + 1) 0 cmd := by
  match hl : (retryAttempts eo fx tool (mr + 1) 0 cmd).getLast? with
  | some last =>
      simp only [execute_tool_with_retry, hl]
      split_ifs <;> rfl
  | none =>
      exact absurd (List.getLast?_eq_none_iff.mp hl)
        (retryAttempts_ne_nil eo fx tool mr 0 cmd)

theorem execute_tool_with_retry_last (eo : Nat → String → ExecAttempt)
    (fx : String → String → String → String) (tool cmd : String) (mr : Nat) :
    ∃ last, (execute_tool_with_retry eo fx tool cmd mr).attempts.getLast? = some last ∧
      (execute_tool_with_retry eo fx tool cmd mr).success = last.success ∧
      (execute_tool_with_retry eo fx tool cmd mr).error = last.error := by
  match hl : (retryAttempts eo fx tool (mr + 1) 0 cmd).getLast? with
  | some last =>
      refine ⟨last, ?_, ?_, ?_⟩
      · rw [execute_tool_with_retry_attempts]
        exact hl
      · simp only [execute_tool_with_retry, hl]
        by_cases hs : last.success = true
        · rw [if_pos hs]
          exact hs.symm
        · rw [if_neg hs]
          simp only [Bool.not_eq_true] at hs
          exact hs.symm
      · simp only [execute_tool_with_retry, hl]
        split_ifs <;> rfl
  | none =>
      exact absurd (List.getLast?_eq_none_iff.mp hl)
        (retryAttempts_ne_nil eo fx tool mr 0 cmd)

theorem retry_early_exit (eo : Nat → String → ExecAttempt)
    (fx : String → String → String → String) (tool cmd : String) (mr : Nat)
    (hmr : 1 ≤ mr) (h1 : (eo 0 cmd).success = false)
    (h2 : fx tool cmd (eo 0 cmd).error = "") :
    (execute_tool_with_retry eo fx tool cmd mr).attempts.length = 1 := by
  rw [execute_tool_with_retry_attempts]
  match mr, hmr with
  | m + 1, _ =>
      show (retryAttempts eo fx tool (m + 1 + 1) 0 cmd).length = 1
      simp only [retryAttempts]
      rw [if_neg (by simp [h1]), if_neg (by omega), if_pos h2]
      rfl

/-! ### Supporting lemmas: signal extraction -/

theorem addPortService_paths (s : SignalSet) (pr : String × String) :
    (addPortService s pr).discoveredPaths = s.discoveredPaths := by
  simp only [addPortService]
  split_ifs <;> rfl

theorem addAll_paths (pms : List (String × String)) :
    ∀ s, (addAll pms s).discoveredPaths = s.discoveredPaths := by
  induction pms with
  | nil => intro s; rfl
  | cons pr t ih =>
      intro s
      rw [addAll, ih, addPortService_paths]

theorem addPortService_contains_self (s : SignalSet) (pr : String × String) :
    (addPortService s pr).openPorts.contains pr.1 = true ∧
    (addPortService s pr).services.contains pr.2 = true := by
  simp only [addPortService]
  split_ifs <;> simp_all

theorem addPortService_mono (s : SignalSet) (pr : String × String) (q : String) :
    (s.openPorts.contains q = true → (addPortService s pr).openPorts.contains q = true) ∧
    (s.services.contains q = true → (addPortService s pr).services.contains q = true) := by
  simp only [addPortService]
  split_ifs <;> constructor <;> intro h <;> simp_all

theorem addAll_mono (pms : List (String × String)) :
    ∀ s q, (s.openPorts.contains q = true →
        (addAll pms s).openPorts.contains q = true) ∧
      (s.services.contains q = true → (addAll pms s).services.contains q = true) := by
  induction pms with
  | nil => intro s q; exact ⟨id, id⟩
  | cons pr t ih =>
      intro s q
      constructor
      · intro h
        exact (ih (addPortService s pr) q).1 ((addPortService_mono s pr q).1 h)
      · intro h
        exact (ih (addPortService s pr) q).2 ((addPortService_mono s pr q).2 h)

theorem addAll_mem (pms : List (String × String)) :
    ∀ s pr, pr ∈ pms → (addAll pms s).openPorts.contains pr.1 = true ∧
      (addAll pms s).services.contains pr.2 = true := by
  induction pms with
  | nil => intro s pr h; simp at h
  | cons hd t ih =>
      intro s pr hmem
      rcases List.mem_cons.mp hmem with rfl | hmem
      · rw [addAll]
        constructor
        · exact (addAll_mono t _ _).1 (addPortService_contains_self s pr).1
        · exact (addAll_mono t _ _).2 (addPortService_contains_self s pr).2
      · rw [addAll]
        exact ih (addPortService s hd) pr hmem

theorem addPortService_noop (s : SignalSet) (pr : String × String)
    (h1 : s.openPorts.contains pr.1 = true) (h2 : s.services.contains pr.2 = true) :
    addPortService s pr = s := by
  simp only [addPortService]
  rw [if_pos h1, if_pos h2]

theorem addAll_noop (pms : List (String × String)) :
    ∀ s, (∀ pr ∈ pms, s.openPorts.contains pr.1 = true ∧
      s.services.contains pr.2 = true) → addAll pms s = s := by
  induction pms with
  | nil => intro s _; rfl
  | cons pr t ih =>
      intro s h
      rw [addAll, addPortService_noop s pr (h pr (List.mem_cons_self _ _)).1
        (h pr (List.mem_cons_self _ _)).2]
      exact ih s fun q hq => h q (List.mem_cons_of_mem _ hq)

theorem extractSignals_ports_services_of_second (out : String) (s : SignalSet)
    (h : ∀ pr ∈ findallPorts out, s.openPorts.contains pr.1 = true ∧
      s.services.contains pr.2 = true) :
    (extractSignals out s).openPorts = s.openPorts ∧
    (extractSignals out s).services = s.services := by
  simp only [extractSignals]
  rw [addAll_noop (findallPorts out) s h]
  exact ⟨rfl, rfl⟩

theorem extractSignals_idempotent_ports (out : String) (s : SignalSet) :
    (extractSignals out (extractSignals out s)).openPorts =
      (extractSignals out s).openPorts ∧
    (extractSignals out (extractSignals out s)).services =
      (extractSignals out s).services := by
  apply extractSignals_ports_services_of_second
  intro pr hpr
  show (extractSignals out s).openPorts.contains pr.1 = true ∧
    (extractSignals out s).services.contains pr.2 = true
  simp only [extractSignals]
  exact addAll_mem (findallPorts out) s pr hpr

theorem extractSignals_paths (out : String) (s : SignalSet) :
    (extractSignals out s).discoveredPaths = s.discoveredPaths ++ findallDirs out := by
  simp only [extractSignals]
  rw [addAll_paths]

theorem extractSignals_no_match (out : String) (s : SignalSet)
    (h1 : findallPorts out = []) (h2 : findallDirs out = []) :
    extractSignals out s = s := by
  simp only [extractSignals]
  rw [h1, h2]
  show ({ s with discoveredPaths := s.discoveredPaths ++ [] } : SignalSet) = s
  simp

/-! ### Supporting lemmas: command generation fallbacks -/

/-- The keys of the `basic_commands` dictionary of `_generate_smart_command`. -/
def basicCommandKeys : List String :=
  ["nmap", "nikto", "sqlmap", "dirb", "gobuster", "hydra", "john", "metasploit",
   "burpsuite", "wireshark", "wpscan", "searchsploit", "enum4linux", "smbclient",
   "whatweb", "dnsrecon", "fierce", "theharvester", "aircrack-ng"]

/-- The keys of the `templates` dictionary of `get_tool_command_template`. -/
def toolManagerTemplateKeys : List String :=
  ["nmap", "nikto", "dirb", "gobuster", "sqlmap", "hydra", "wpscan", "john",
   "hashcat", "aircrack-ng", "recon-ng"]

theorem basicCommandLookup_none (key target : String)
    (ports services dirs : List String) (h : key ∉ basicCommandKeys) :
    basicCommandLookup key target ports services dirs = none := by
  simp only [basicCommandKeys, List.mem_cons, not_or] at h
  obtain ⟨h1, h2, h3, h4, h5, h6, h7, h8, h9, h10, h11, h12, h13, h14, h15, h16,
    h17, h18, h19, -⟩ := h
  unfold basicCommandLookup
  rw [if_neg h1, if_neg h2, if_neg h3, if_neg h4, if_neg h5, if_neg h6, if_neg h7,
    if_neg h8, if_neg h9, if_neg h10, if_neg h11, if_neg h12, if_neg h13, if_neg h14,
    if_neg h15, if_neg h16, if_neg h17, if_neg h18, if_neg h19]

theorem get_tool_command_template_fallback (tool_name target : String)
    (h : tool_name ∉ toolManagerTemplateKeys) :
    get_tool_command_template tool_name target = tool_name ++ " " ++ target := by
  simp only [toolManagerTemplateKeys, List.mem_cons, not_or] at h
  obtain ⟨h1, h2, h3, h4, h5, h6, h7, h8, h9, h10, h11, -⟩ := h
  unfold get_tool_command_template
  rw [if_neg h1, if_neg h2, if_neg h3, if_neg h4, if_neg h5, if_neg h6, if_neg h7,
    if_neg h8, if_neg h9, if_neg h10, if_neg h11]

theorem generate_smart_command_fallback (tool_name target : String)
    (prev : List String) (h : pyLower tool_name ∉ basicCommandKeys) :
    generate_smart_command tool_name target prev = tool_name ++ " " ++ target := by
  simp only [generate_smart_command]
  rw [basicCommandLookup_none _ _ _ _ _ h]

theorem generate_smart_command_ne_empty (tool_name target : String)
    (prev : List String) : generate_smart_command tool_name target prev ≠ "" := by
  simp only [generate_smart_command]
  match hlk : basicCommandLookup (pyLower tool_name) target
      (signalsOfOutputs prev).openPorts (signalsOfOutputs prev).services
      (signalsOfOutputs prev).discoveredPaths with
  | none =>
      simp only [hlk]
      exact str_with_space_ne_empty tool_name target
  | some c =>
      simp only [hlk]
      by_cases hc : c = ""
      · rw [if_pos hc]
        exact str_with_space_ne_empty tool_name target
      · rw [if_neg hc]
        exact hc

theorem length_zero_eq_empty (s : String) (h : s.length = 0) : s = "" := by
  cases s with
  | mk data =>
    cases data with
    | nil => rfl
    | cons c cs => simp [String.length] at h

theorem append_ne_empty_left (a b : String) (h : a ≠ "") : a ++ b ≠ "" := by
  intro he
  have hl := congrArg String.length he
  rw [String.length_append] at hl
  simp only [String.length_empty, Nat.add_eq_zero] at hl
  exact h (length_zero_eq_empty a hl.1)

set_option maxHeartbeats 1600000 in
theorem get_tool_command_template_ne_empty (tool_name target : String) :
    get_tool_command_template tool_name target ≠ "" := by
  unfold get_tool_command_template
  split_ifs
  · exact append_ne_empty_left _ _ (by decide)
  · exact append_ne_empty_left _ _ (by decide)
  · exact append_ne_empty_left _ _ (append_ne_empty_left _ _ (by decide))
  · exact append_ne_empty_left _ _ (append_ne_empty_left _ _ (by decide))
  · exact append_ne_empty_left _ _ (append_ne_empty_left _ _ (by decide))
  · exact append_ne_empty_left _ _ (append_ne_empty_left _ _ (by decide))
  · exact append_ne_empty_left _ _ (append_ne_empty_left _ _ (by decide))
  · decide
  · decide
  · decide
  · exact append_ne_empty_left _ _ (by decide)
  · exact str_with_space_ne_empty tool_name target

/-! ### Supporting lemmas: session-id injectivity -/

theorem digitChar_inj : ∀ a < 10, ∀ b < 10, digitChar a = digitChar b → a = b := by decide

theorem pad2_inj (a b : Nat) (ha : a < 100) (hb : b < 100) (h : pad2 a = pad2 b) :
    a = b := by
  simp only [pad2, List.cons.injEq, and_true] at h
  have e1 := digitChar_inj (a / 10) (by omega) (b / 10) (by omega) h.1
  have e2 := digitChar_inj (a % 10) (by omega) (b % 10) (by omega) h.2
  omega

theorem pad4_inj (a b : Nat) (ha : a ≤ 9999) (hb : b ≤ 9999) (h : pad4 a = pad4 b) :
    a = b := by
  simp only [pad4, List.cons.injEq, and_true] at h
  have e1 := digitChar_inj (a / 1000) (by omega) (b / 1000) (by omega) h.1
  have e2 := digitChar_inj (a / 100 % 10) (by omega) (b / 100 % 10) (by omega) h.2.1
  have e3 := digitChar_inj (a / 10 % 10) (by omega) (b / 10 % 10) (by omega) h.2.2.1
  have e4 := digitChar_inj (a % 10) (by omega) (b % 10) (by omega) h.2.2.2
  omega

theorem string_data_mk (l : List Char) : (String.mk l).data = l := rfl

theorem string_data_append (a b : String) : (a ++ b).data = a.data ++ b.data := by
  cases a
  cases b
  rfl

/-! ## Claim theorems -/

/-- C9 (amended): session-id generation is collision-free at second
resolution.  For execution-start times within the calendar ranges rendered
by `strftime("%Y%m%d_%H%M%S")`, equal session ids force equal
year/month/day/hour/minute/second components; the sub-second component is
not captured (see the counterexample). -/
theorem claim_C9 (t1 t2 : PyDateTime)
    (hy1 : t1.year ≤ 9999) (hy2 : t2.year ≤ 9999)
    (hmo1 : t1.month < 100) (hmo2 : t2.month < 100)
    (hd1 : t1.day < 100) (hd2 : t2.day < 100)
    (hh1 : t1.hour < 100) (hh2 : t2.hour < 100)
    (hmi1 : t1.minute < 100) (hmi2 : t2.minute < 100)
    (hs1 : t1.second < 100) (hs2 : t2.second < 100)
    (h : generate_session_id t1 = generate_session_id t2) :
    t1.year = t2.year ∧ t1.month = t2.month ∧ t1.day = t2.day ∧
    t1.hour = t2.hour ∧ t1.minute = t2.minute ∧ t1.second = t2.second := by
  have hd := congrArg String.data h
  simp only [generate_session_id, formatTimestamp, string_data_append,
    string_data_mk, List.append_assoc] at hd
  have hc := List.append_cancel_left hd
  obtain ⟨e1, r1⟩ := List.append_inj hc rfl
  obtain ⟨e2, r2⟩ := List.append_inj r1 rfl
  obtain ⟨e3, r3⟩ := List.append_inj r2 rfl
  obtain ⟨-, r4⟩ := List.append_inj r3 rfl
  obtain ⟨e5, r5⟩ := List.append_inj r4 rfl
  obtain ⟨e6, e7⟩ := List.append_inj r5 rfl
  exact ⟨pad4_inj _ _ hy1 hy2 e1, pad2_inj _ _ hmo1 hmo2 e2,
    pad2_inj _ _ hd1 hd2 e3, pad2_inj _ _ hh1 hh2 e5,
    pad2_inj _ _ hmi1 hmi2 e6, pad2_inj _ _ hs1 hs2 e7⟩

/-- C9 witness: two concrete start times in the same second (differing only
in microseconds) have equal session ids, and the amended theorem recovers
the equality of every second-resolution component. -/
theorem claim_C9_witness :
    (⟨2025, 10, 12, 9, 30, 7, 0⟩ : PyDateTime).year =
      (⟨2025, 10, 12, 9, 30, 7, 500000⟩ : PyDateTime).year ∧
    (⟨2025, 10, 12, 9, 30, 7, 0⟩ : PyDateTime).second =
      (⟨2025, 10, 12, 9, 30, 7, 500000⟩ : PyDateTime).second := by
  have h := claim_C9 ⟨2025, 10, 12, 9, 30, 7, 0⟩ ⟨2025, 10, 12, 9, 30, 7, 500000⟩
    (by decide) (by decide) (by decide) (by decide) (by decide) (by decide)
    (by decide) (by decide) (by decide) (by decide) (by decide) (by decide)
    (by decide)
  exact ⟨h.1, h.2.2.2.2.2⟩

/-- C9 counterexample: the claim as stated is false — two distinct
execution-start times (differing in the microsecond component, i.e. two
sessions started within the same wall-clock second) produce the same
session id, so the second session's persisted record would overwrite the
first one's. -/
theorem claim_C9_counterexample :
    (⟨2025, 10, 12, 9, 30, 7, 0⟩ : PyDateTime) ≠ ⟨2025, 10, 12, 9, 30, 7, 500000⟩ ∧
    generate_session_id ⟨2025, 10, 12, 9, 30, 7, 0⟩ =
      generate_session_id ⟨2025, 10, 12, 9, 30, 7, 500000⟩ := by
  decide

/-- C1: on the Scenario A criteria string the extractor does NOT return the
IPv4 literal the claim requires.  The patterns are written with doubled
backslashes inside raw strings, so `\\b...` matches a literal backslash
rather than a word boundary; no pattern matches plain text and the function
falls through to the loopback default. -/
theorem claim_C1 :
    extract_target_from_criteria "scan 192.168.1.1 for open ports" = "127.0.0.1" ∧
    extract_target_from_criteria "scan 192.168.1.1 for open ports" ≠ "192.168.1.1" := by
  decide

/-- Process-run oracle for the C2 scenario: every physical execution
succeeds with output `"out"`. -/
def execC2 : Nat → String → ExecAttempt :=
  fun _ _ => { success := true, output := "out", error := "", return_code := 0,
               execution_time := 1 }

/-- Advisory-service oracle for the C2 scenario: no corrective command. -/
def fixC2 : String → String → String → String := fun _ _ _ => ""

/-- The three-tool job of Scenario E: the first tool's template expands to a
blocklisted command, the other two to safe ones. -/
def toolsC2 : List ToolInfo :=
  [⟨"badtool", "badtool rm -rf TARGET"⟩, ⟨"tool2", "tool2 scan TARGET"⟩,
   ⟨"tool3", "tool3 probe TARGET"⟩]

/-- C2: every command case-insensitively containing a blocklist entry is
rejected and produces no execution attempt (the blocked first tool gets no
results entry); but the rest of the claim fails on the code — in the
three-tool scenario the loop crashes right after the first successful tool
(the 2-argument `analyze_tool_output` call raises `TypeError`; had the
output been empty, the undefined `_generate_intelligent_command` would have
raised `AttributeError` on the next tool), so `tool3` never executes and is
never recorded even though its command passes validation. -/
theorem claim_C2 :
    (∀ command : String, validate_tool_safety command = ! hasBlockedPattern command) ∧
    generate_command ⟨"badtool", "badtool rm -rf TARGET"⟩ "x" = none ∧
    (run_tools execC2 fixC2 toolsC2 "x").results.map Prod.fst = ["tool2"] ∧
    (run_tools execC2 fixC2 toolsC2 "x").crash =
      some (.typeErrorAnalyze "tool2") ∧
    (run_tools execC2 fixC2 toolsC2 "x").saved = false ∧
    validate_tool_safety "tool3 probe 127.0.0.1" = true := by
  exact ⟨validate_tool_safety_eq, by decide, by decide, by decide, by decide, by decide⟩

/-- C3: the retry controller performs between 1 and `max_retries + 1`
physical executions, every attempt record is the result of one physical
execution in order (the `i`-th stored attempt is the `i`-th run), the
result's `success` and `error` mirror the last attempt, and a failed first
attempt with no corrective command from the advisory service ends the loop
after a single attempt even when retries remain. -/
theorem claim_C3 (eo : Nat → String → ExecAttempt)
    (fx : String → String → String → String) (tool cmd : String) (mr : Nat) :
    1 ≤ (execute_tool_with_retry eo fx tool cmd mr).attempts.length ∧
    (execute_tool_with_retry eo fx tool cmd mr).attempts.length ≤ mr + 1 ∧
    (∀ i, i < (execute_tool_with_retry eo fx tool cmd mr).attempts.length →
      ∃ c, (execute_tool_with_retry eo fx tool cmd mr).attempts[i]? = some (eo i c)) ∧
    (∃ last, (execute_tool_with_retry eo fx tool cmd mr).attempts.getLast? = some last ∧
      (execute_tool_with_retry eo fx tool cmd mr).success = last.success ∧
      (execute_tool_with_retry eo fx tool cmd mr).error = last.error) ∧
    (1 ≤ mr → (eo 0 cmd).success = false → fx tool cmd (eo 0 cmd).error = "" →
      (execute_tool_with_retry eo fx tool cmd mr).attempts.length = 1) := by
  refine ⟨?_, ?_, ?_, ?_, ?_⟩
  · rw [execute_tool_with_retry_attempts]
    have := retryAttempts_ne_nil eo fx tool mr 0 cmd
    have hp := List.length_pos.mpr this
    omega
  · rw [execute_tool_with_retry_attempts]
    exact retryAttempts_len_le eo fx tool (mr + 1) 0 cmd
  · intro i hi
    rw [execute_tool_with_retry_attempts] at hi ⊢
    obtain ⟨c, hc⟩ := retryAttempts_get eo fx tool (mr + 1) 0 cmd i hi
    exact ⟨c, by simpa using hc⟩
  · exact execute_tool_with_retry_last eo fx tool cmd mr
  · intro hmr h1 h2
    exact retry_early_exit eo fx tool cmd mr hmr h1 h2

/-- Process-run oracle for the C3 witness: every execution fails. -/
def eoC3 : Nat → String → ExecAttempt :=
  fun _ _ => { success := false, output := "", error := "boom", return_code := 1,
               execution_time := 0 }

/-- Advisory-service oracle for the C3 witness: no corrective command. -/
def fxC3 : String → String → String → String := fun _ _ _ => ""

/-- C3 witness: with a failing execution and a silent advisory service the
retry loop stops after exactly one attempt although two retries remain. -/
theorem claim_C3_witness :
    (execute_tool_with_retry eoC3 fxC3 "nmap" "nmap -sS -O 10.0.0.5" 2).attempts.length = 1 :=
  (claim_C3 eoC3 fxC3 "nmap" "nmap -sS -O 10.0.0.5" 2).2.2.2.2 (by omega) rfl rfl

/-- C4: the execution runner is total — for every command, timeout, process
outcome and measured duration it returns an attempt record; the duration is
recorded regardless of outcome; a completed process is successful exactly
when its exit code is 0; a timeout yields `success = false` with the
timed-out error message naming the timeout; a missing executable yields
`success = false` with an error containing "not found"; and overall
`success = true` holds exactly for a completed process with exit code 0. -/
theorem claim_C4 (command : String) (timeout : Nat) (oc : ProcOutcome) (elapsed : ℚ) :
    (execute_single_command command timeout oc elapsed).execution_time = elapsed ∧
    (∀ rc so se, oc = .completed rc so se →
      (execute_single_command command timeout oc elapsed).success = (rc == 0) ∧
      (execute_single_command command timeout oc elapsed).output = so ∧
      (execute_single_command command timeout oc elapsed).return_code = rc) ∧
    (oc = .timedOut →
      (execute_single_command command timeout oc elapsed).success = false ∧
      (execute_single_command command timeout oc elapsed).error =
        "Command timed out after " ++ toString timeout ++ " seconds") ∧
    (oc = .fileNotFound →
      (execute_single_command command timeout oc elapsed).success = false ∧
      pyIn "not found" (execute_single_command command timeout oc elapsed).error = true) ∧
    ((execute_single_command command timeout oc elapsed).success = true ↔
      ∃ so se, oc = .completed 0 so se) := by
  cases oc with
  | completed rc so se =>
      refine ⟨rfl, ?_, ?_, ?_, ?_⟩
      · intro rc2 so2 se2 h
        cases h
        exact ⟨rfl, rfl, rfl⟩
      · intro h
        cases h
      · intro h
        cases h
      · constructor
        · intro hs
          have h0 : rc = 0 := eq_of_beq hs
          exact ⟨so, se, by rw [h0]⟩
        · rintro ⟨so2, se2, h⟩
          cases h
          simp [execute_single_command]
  | timedOut =>
      refine ⟨rfl, ?_, ?_, ?_, ?_⟩
      · intro rc so se h
        cases h
      · intro h
        exact ⟨rfl, rfl⟩
      · intro h
        cases h
      · constructor
        · intro hs
          cases hs
        · rintro ⟨so, se, h⟩
          cases h
  | fileNotFound =>
      refine ⟨rfl, ?_, ?_, ?_, ?_⟩
      · intro rc so se h
        cases h
      · intro h
        cases h
      · intro h
        refine ⟨rfl, ?_⟩
        exact pyIn_append_right "not found" ("Tool '" ++ firstToken command)
          "' not found. Please ensure it's installed and in PATH." (by decide)
      · constructor
        · intro hs
          cases hs
        · rintro ⟨so, se, h⟩
          cases h
  | launchError msg =>
      refine ⟨rfl, ?_, ?_, ?_, ?_⟩
      · intro rc so se h
        cases h
      · intro h
        cases h
      · intro h
        cases h
      · constructor
        · intro hs
          cases hs
        · rintro ⟨so, se, h⟩
          cases h

/-- C4 witness: the missing-executable outcome at a concrete command
returns failure with a "not found" error. -/
theorem claim_C4_witness :
    (execute_single_command "missingtool -v" 30 .fileNotFound 5).success = false ∧
    pyIn "not found" (execute_single_command "missingtool -v" 30 .fileNotFound 5).error
      = true :=
  (claim_C4 "missingtool -v" 30 .fileNotFound 5).2.2.2.1 rfl

/-- C5: the nmap generator.  With no known open ports it emits the broad
discovery scan of the target — top 1000 ports with the OS-detection flags
`-O`/`-A` present; with accumulated open ports `22` and `80` it emits the
deep scan whose port list is exactly `22,80` (the command string is pinned
exactly, so no other ports occur). -/
theorem claim_C5 (target : String) :
    generate_nmap_command target [] = "nmap -sS -sV -O -A --top-ports 1000 " ++ target ∧
    pyIn "-O" (generate_nmap_command target []) = true ∧
    pyIn "--top-ports 1000" (generate_nmap_command target []) = true ∧
    generate_nmap_command target ["22", "80"] = "nmap -sC -sV -p 22,80 " ++ target := by
  refine ⟨rfl, ?_, ?_, rfl⟩
  · exact pyIn_append_left "-O" "nmap -sS -sV -O -A --top-ports 1000 " target (by decide)
  · exact pyIn_append_left "--top-ports 1000" "nmap -sS -sV -O -A --top-ports 1000 "
      target (by decide)

/-- C6: signal extraction has set semantics for ports and services — a
second pass over the same output changes neither — while `discoveredPaths`
grows by exactly the list of textual path matches of the output, in order,
duplicates preserved; and an output with no matches leaves the signal set
unchanged (extraction is total, so it never raises). -/
theorem claim_C6 (out : String) (s : SignalSet) :
    (extractSignals out (extractSignals out SignalSet.empty)).openPorts =
      (extractSignals out SignalSet.empty).openPorts ∧
    (extractSignals out (extractSignals out SignalSet.empty)).services =
      (extractSignals out SignalSet.empty).services ∧
    (extractSignals out s).discoveredPaths = s.discoveredPaths ++ findallDirs out ∧
    (findallPorts out = [] → findallDirs out = [] → extractSignals out s = s) := by
  refine ⟨(extractSignals_idempotent_ports out SignalSet.empty).1,
    (extractSignals_idempotent_ports out SignalSet.empty).2,
    extractSignals_paths out s, ?_⟩
  intro h1 h2
  exact extractSignals_no_match out s h1 h2

/-- C6 witness: a matchless output leaves a concrete signal set unchanged,
and a second extraction pass over a port-bearing output does not change the
port set. -/
theorem claim_C6_witness :
    extractSignals "no signals here" ⟨["22"], ["ssh"], ["/admin"]⟩ =
      ⟨["22"], ["ssh"], ["/admin"]⟩ ∧
    (extractSignals "22/tcp open ssh" (extractSignals "22/tcp open ssh"
        SignalSet.empty)).openPorts =
      (extractSignals "22/tcp open ssh" SignalSet.empty).openPorts := by
  refine ⟨?_, (claim_C6 "22/tcp open ssh" SignalSet.empty).1⟩
  exact (claim_C6 "no signals here" ⟨["22"], ["ssh"], ["/admin"]⟩).2.2.2
    (by decide) (by decide)

/-- C7: for a tool whose lowercased name is outside the `basic_commands`
table, smart command generation returns exactly `"<name> <target>"`, and
likewise for the tool-manager template table; both generators are total and
always return a non-empty command string. -/
theorem claim_C7 (tool_name target : String) (prev : List String) :
    (pyLower tool_name ∉ basicCommandKeys →
      generate_smart_command tool_name target prev = tool_name ++ " " ++ target) ∧
    (tool_name ∉ toolManagerTemplateKeys →
      get_tool_command_template tool_name target = tool_name ++ " " ++ target) ∧
    generate_smart_command tool_name target prev ≠ "" ∧
    get_tool_command_template tool_name target ≠ "" := by
  exact ⟨fun h => generate_smart_command_fallback tool_name target prev h,
    fun h => get_tool_command_template_fallback tool_name target h,
    generate_smart_command_ne_empty tool_name target prev,
    get_tool_command_template_ne_empty tool_name target⟩

/-- C7 witness: a concrete unknown tool degrades to the generic
`"<name> <target>"` command on both paths. -/
theorem claim_C7_witness :
    generate_smart_command "customtool" "10.0.0.5" [] = "customtool 10.0.0.5" ∧
    get_tool_command_template "customtool" "10.0.0.5" = "customtool 10.0.0.5" := by
  have h := claim_C7 "customtool" "10.0.0.5" []
  refine ⟨?_, ?_⟩
  · rw [h.1 (by decide)]
    decide
  · rw [h.2.1 (by decide)]
    decide

/-- C8: session persistence round-trips.  For every session document whose
numeric literals are well-formed, writing the per-session file and parsing
it back yields exactly the serialized document — tool order, per-tool
attempt lists and all field contents included — and serialization is
injective, so the reloaded document determines the original record. -/
theorem claim_C8 (a b : SessionDoc) (ha : a.wfNums = true) :
    load_session_doc (save_session_doc a) = some (sessionToJson a) ∧
    (sessionToJson a = sessionToJson b → a = b) := by
  refine ⟨?_, fun h => sessionToJson_inj h⟩
  exact jsonLoads_jsonDumps (sessionToJson a) (sessionToJson_wf a ha)

/-- The single execution attempt of the C8 witness document. -/
def attC8 : AttemptDoc :=
  { success := true, output := "22/tcp open ssh", error := "",
    return_code := ⟨false, ['0'], [], none⟩,
    execution_time := ⟨false, ['1'], ['5'], none⟩ }

/-- The single tool result of the C8 witness document. -/
def trC8 : ToolResultDoc :=
  { tool := "nmap", command := "nmap -sS -O 127.0.0.1", success := true,
    output := "22/tcp open ssh", error := "",
    execution_time := ⟨false, ['1'], ['5'], none⟩,
    return_code := some ⟨false, ['0'], [], none⟩,
    attempts := [attC8] }

/-- A concrete one-tool session document for the C8 witness. -/
def sdC8 : SessionDoc :=
  { session_id := "autopentest_20251012_093007",
    timestamp := "2025-10-12T09:30:07.000000",
    criteria := "scan the host",
    tools := [⟨"nmap", ""⟩],
    results := [("nmap", trC8)] }

/-- C8 witness: the concrete session document round-trips through the
persistence file. -/
theorem claim_C8_witness :
    sdC8.wfNums = true ∧
    load_session_doc (save_session_doc sdC8) = some (sessionToJson sdC8) :=
  ⟨by decide, (claim_C8 sdC8 sdC8 (by decide)).1⟩

/-- C10: the blocklist check `validate_tool_safety` is total and accepts
every string without a blocklisted substring — including the empty string
and strings of trimmed length at most 2 — while the separate wrapper
`_validate_command` (advisory path only) rejects those short strings and
otherwise agrees with the blocklist check; the template path
(`_generate_command`) gates only through the blocklist check, so a
two-character template command passes it. -/
theorem claim_C10 (s : String) :
    (hasBlockedPattern s = false → validate_tool_safety s = true) ∧
    validate_tool_safety "" = true ∧
    validate_tool_safety "ab" = true ∧
    validate_command "" = false ∧
    validate_command "ab" = false ∧
    (3 ≤ (pyStrip s).length → validate_command s = validate_tool_safety s) ∧
    generate_command ⟨"mytool", "ab"⟩ "x" = some "ab" := by
  refine ⟨?_, by decide, by decide, by decide, by decide, ?_, by decide⟩
  · intro h
    rw [validate_tool_safety_eq, h]
    rfl
  · intro h
    have hne : s ≠ "" := by
      intro he
      rw [he] at h
      revert h
      decide
    have hc : (decide (s = "") || decide ((pyStrip s).length < 3)) = false := by
      simp only [Bool.or_eq_false_iff, decide_eq_false_iff_not]
      exact ⟨hne, by omega⟩
    simp [validate_command, hc]

/-- C10 witness: a concrete short-but-safe command is accepted by the
blocklist check, and a concrete length-11 command is treated identically by
both validators. -/
theorem claim_C10_witness :
    validate_tool_safety "ls -la /tmp" = true ∧
    validate_command "ls -la /tmp" = validate_tool_safety "ls -la /tmp" :=
  ⟨(claim_C10 "ls -la /tmp").1 (by decide),
   (claim_C10 "ls -la /tmp").2.2.2.2.2.1 (by decide)⟩

end AegisSec
